import Mathlib

/-!
Verification of the nu-pywal color-scheme cache and parallel batch processor.

This file shallowly embeds the claim-relevant parts of `pywal/cache.py` and
`pywal/parallel.py`.  File-system and database effects are made explicit:
file contents and file presence are passed as environment parameters, the
sqlite `cache_entries` table is a list of rows, and wall-clock instants are
explicit `Int` arguments.  Python floats that only ever hold byte counts or
epoch seconds are modelled as `Nat`/`Int`; the scorer's float arithmetic is
modelled over `ℚ` with decimal literals read exactly.
-/

namespace NuPywal

/-! ## SHA-256 (as called by `hashlib.sha256` in `generate_cache_key`)

The digest operates on lists of byte values (`Nat < 256`), words are `Nat`
reduced modulo `2^32` explicitly. -/

/-- Truncate to a 32-bit word. -/
def w32 (n : Nat) : Nat := n % 4294967296

/-- Rotate a 32-bit word right by `n` bits. -/
def rotr (n x : Nat) : Nat := w32 (x / 2 ^ n + x % 2 ^ n * 2 ^ (32 - n))

def sha256Ch (x y z : Nat) : Nat := (x &&& y) ^^^ ((x ^^^ 4294967295) &&& z)

def sha256Maj (x y z : Nat) : Nat := (x &&& y) ^^^ (x &&& z) ^^^ (y &&& z)

def bigSigma0 (x : Nat) : Nat := rotr 2 x ^^^ rotr 13 x ^^^ rotr 22 x

def bigSigma1 (x : Nat) : Nat := rotr 6 x ^^^ rotr 11 x ^^^ rotr 25 x

def smallSigma0 (x : Nat) : Nat := rotr 7 x ^^^ rotr 18 x ^^^ (x >>> 3)

def smallSigma1 (x : Nat) : Nat := rotr 17 x ^^^ rotr 19 x ^^^ (x >>> 10)

/-- The 64 SHA-256 round constants (FIPS 180-4), in decimal. -/
def sha256K : List Nat :=
  [1116352408, 1899447441, 3049323471, 3921009573, 961987163,
   1508970993, 2453635748, 2870763221, 3624381080, 310598401,
   607225278, 1426881987, 1925078388, 2162078206, 2614888103,
   3248222580, 3835390401, 4022224774, 264347078, 604807628,
   770255983, 1249150122, 1555081692, 1996064986, 2554220882,
   2821834349, 2952996808, 3210313671, 3336571891, 3584528711,
   113926993, 338241895, 666307205, 773529912, 1294757372,
   1396182291, 1695183700, 1986661051, 2177026350, 2456956037,
   2730485921, 2820302411, 3259730800, 3345764771, 3516065817,
   3600352804, 4094571909, 275423344, 430227734, 506948616,
   659060556, 883997877, 958139571, 1322822218, 1537002063,
   1747873779, 1955562222, 2024104815, 2227730452, 2361852424,
   2428436474, 2756734187, 3204031479, 3329325298]

/-- Message schedule `W[i]` for one 16-word block. -/
def sha256W (m : List Nat) (i : Nat) : Nat :=
  if _h : i < 16 then m.getD i 0
  else w32 (smallSigma1 (sha256W m (i - 2)) + sha256W m (i - 7) +
            smallSigma0 (sha256W m (i - 15)) + sha256W m (i - 16))
termination_by i
decreasing_by all_goals omega

/-- One round of the SHA-256 compression function. -/
def sha256Round (w k : Nat)
    (st : Nat × Nat × Nat × Nat × Nat × Nat × Nat × Nat) :
    Nat × Nat × Nat × Nat × Nat × Nat × Nat × Nat :=
  match st with
  | (a, b, c, d, e, f, g, h) =>
    let t1 := w32 (h + bigSigma1 e + sha256Ch e f g + k + w)
    let t2 := w32 (bigSigma0 a + sha256Maj a b c)
    (w32 (t1 + t2), a, b, c, w32 (d + t1), e, f, g)

/-- Apply rounds `0, …, n-1` of the compression function in order. -/
def sha256Rounds (m : List Nat)
    (st : Nat × Nat × Nat × Nat × Nat × Nat × Nat × Nat) :
    Nat → Nat × Nat × Nat × Nat × Nat × Nat × Nat × Nat
  | 0 => st
  | n + 1 => sha256Round (sha256W m n) (sha256K.getD n 0) (sha256Rounds m st n)

/-- Compress one 16-word block into the running hash state. -/
def sha256Block (H : Nat × Nat × Nat × Nat × Nat × Nat × Nat × Nat)
    (m : List Nat) : Nat × Nat × Nat × Nat × Nat × Nat × Nat × Nat :=
  match H, sha256Rounds m H 64 with
  | (h0, h1, h2, h3, h4, h5, h6, h7), (a, b, c, d, e, f, g, h) =>
    (w32 (h0 + a), w32 (h1 + b), w32 (h2 + c), w32 (h3 + d),
     w32 (h4 + e), w32 (h5 + f), w32 (h6 + g), w32 (h7 + h))

def sha256Init : Nat × Nat × Nat × Nat × Nat × Nat × Nat × Nat :=
  (1779033703, 3144134277, 1013904242, 2773480762,
   1359893119, 2600822924, 528734635, 1541459225)

/-- Big-endian 8-byte encoding of the message bit length. -/
def sha256LenBytes (n : Nat) : List Nat :=
  [n / 2 ^ 56 % 256, n / 2 ^ 48 % 256, n / 2 ^ 40 % 256, n / 2 ^ 32 % 256,
   n / 2 ^ 24 % 256, n / 2 ^ 16 % 256, n / 2 ^ 8 % 256, n % 256]

/-- SHA-256 padding: `0x80`, zeros to 56 mod 64, then the 64-bit bit length. -/
def sha256Pad (msg : List Nat) : List Nat :=
  msg ++ [128] ++ List.replicate ((119 - msg.length % 64) % 64) 0 ++
    sha256LenBytes (msg.length * 8)

/-- Group bytes into big-endian 32-bit words. -/
def bytesToWords : List Nat → List Nat
  | b0 :: b1 :: b2 :: b3 :: rest =>
      (b0 * 16777216 + b1 * 65536 + b2 * 256 + b3) :: bytesToWords rest
  | _ => []

/-- Split a byte list into 64-byte chunks (fuel-indexed helper). -/
def chunks64F : Nat → List Nat → List (List Nat)
  | 0, _ => []
  | _, [] => []
  | fuel + 1, l => l.take 64 :: chunks64F fuel (l.drop 64)

def chunks64 (l : List Nat) : List (List Nat) := chunks64F l.length l

def sha256Digest (msg : List Nat) : Nat × Nat × Nat × Nat × Nat × Nat × Nat × Nat :=
  (chunks64 (sha256Pad msg)).foldl (fun H blk => sha256Block H (bytesToWords blk))
    sha256Init

/-- The lowercase hex digit character for `d < 16`, as produced by Python's
`hexdigest` (codepoint 48 is `0`, codepoint 97 is `a`). -/
def hexChar (d : Nat) : Char :=
  if d < 10 then Char.ofNat (48 + d) else Char.ofNat (87 + d)

def isHexChar (c : Char) : Bool :=
  decide (('0' ≤ c ∧ c ≤ '9') ∨ ('a' ≤ c ∧ c ≤ 'f'))

/-- Render a 32-bit word as 8 hex characters, most significant first. -/
def toHex8 (n : Nat) : List Char :=
  [hexChar (n / 16 ^ 7 % 16), hexChar (n / 16 ^ 6 % 16), hexChar (n / 16 ^ 5 % 16),
   hexChar (n / 16 ^ 4 % 16), hexChar (n / 16 ^ 3 % 16), hexChar (n / 16 ^ 2 % 16),
   hexChar (n / 16 % 16), hexChar (n % 16)]

/-- The 64-character `hexdigest()` of SHA-256 of a byte string. -/
def sha256HexChars (msg : List Nat) : List Char :=
  match sha256Digest msg with
  | (a, b, c, d, e, f, g, h) =>
    toHex8 a ++ toHex8 b ++ toHex8 c ++ toHex8 d ++
    toHex8 e ++ toHex8 f ++ toHex8 g ++ toHex8 h

/-- UTF-8 encoding of one character (Python `str.encode()`). -/
def utf8Bytes (c : Char) : List Nat :=
  let n := c.toNat
  if n < 128 then [n]
  else if n < 2048 then [192 + n / 64, 128 + n % 64]
  else if n < 65536 then [224 + n / 4096, 128 + n / 64 % 64, 128 + n % 64]
  else [240 + n / 262144, 128 + n / 4096 % 64, 128 + n / 64 % 64, 128 + n % 64]

def strBytes (s : String) : List Nat := (s.data.map utf8Bytes).flatten

/-! ## Key generation (`AdvancedCache.generate_cache_key`, cache.py:109-141) -/

/-- Modelled from the spec: the cache-format version string `__cache_version__`
is imported from the `settings` module, which is not among the source files;
§4.1 only requires that the version string participates in the key.  Every
theorem below holds for any value of this constant. -/
def cacheVersion : String := "1.1.0"

/-- Embeds `"light" if light else "dark"` (cache.py:126). -/
def lightStr (light : Bool) : String := if light then "light" else "dark"

/-- Embeds `sat or "0"` — Python's falsy-default, the empty string becomes `"0"`
(cache.py:127). -/
def normSat (sat : String) : String := if sat = "" then "0" else sat

/-- Embeds `cache_key = "_".join(key_components)` (cache.py:123-133): the string the
digest is computed over.  The image content hash, file size and integral
mtime are inputs here; reading and statting the file is I/O performed by
`_get_image_hash` / `os.stat`. -/
def digestInput (imageHash backend : String) (light : Bool) (sat : String)
    (fileSize : Nat) (fileMtime : Int) : String :=
  imageHash ++ "_" ++ backend ++ "_" ++ lightStr light ++ "_" ++ normSat sat ++
    "_" ++ toString fileSize ++ "_" ++ toString fileMtime ++ "_" ++ cacheVersion

/-- Embeds `AdvancedCache.generate_cache_key`, success branch (cache.py:113-134):
`hashlib.sha256(cache_key.encode()).hexdigest()[:16]`.  The `OSError`
fallback (degraded MD5 key of path and parameters, cache.py:136-141) is the
stat-failure path, which no claim exercises — every claim fixes an image
whose size and mtime exist. -/
def generate_cache_key (imageHash backend : String) (light : Bool) (sat : String)
    (fileSize : Nat) (fileMtime : Int) : String :=
  String.mk ((sha256HexChars
    (strBytes (digestInput imageHash backend light sat fileSize fileMtime))).take 16)

theorem string_mk_data (l : List Char) : (String.mk l).data = l := rfl

theorem toHex8_length (n : Nat) : (toHex8 n).length = 8 := rfl

theorem hexChar_isHex (d : Nat) (h : d < 16) : isHexChar (hexChar d) = true := by
  interval_cases d <;> decide

theorem toHex8_hex (n : Nat) : ∀ c ∈ toHex8 n, isHexChar c = true := by
  intro c hc
  simp only [toHex8, List.mem_cons, List.not_mem_nil, or_false] at hc
  rcases hc with h | h | h | h | h | h | h | h <;> subst h <;>
    exact hexChar_isHex _ (Nat.mod_lt _ (by decide))

theorem sha256HexChars_length (msg : List Nat) :
    (sha256HexChars msg).length = 64 := by
  unfold sha256HexChars
  rcases sha256Digest msg with ⟨a, b, c, d, e, f, g, h⟩
  simp [toHex8]

theorem sha256HexChars_hex (msg : List Nat) :
    ∀ c ∈ sha256HexChars msg, isHexChar c = true := by
  unfold sha256HexChars
  rcases sha256Digest msg with ⟨a, b, c, d, e, f, g, h⟩
  intro ch hch
  simp only [List.mem_append] at hch
  rcases hch with ((((((h1 | h1) | h1) | h1) | h1) | h1) | h1) | h1 <;>
    exact toHex8_hex _ _ h1

/-! ## Cache store model (cache.py, class `AdvancedCache`)

The sqlite `cache_entries` table is a list of rows in insertion order; the
file system is an environment `fs : String → FileState` giving the state of
the backing artifact file at each path; `time.time()` instants are explicit
`Int` arguments.  Of `CacheStats`, the fields no claim touches are omitted:
the running average access latency (wall-clock time), the bytes saved by
compression (depends on the serialized document length), and the derived
`most_accessed` / `backend_usage` reports. -/

/-- One row of the `cache_entries` table (cache.py:71-83), equally the
`CacheEntry` dataclass (cache.py:23-35). -/
structure CacheEntry where
  key : String
  file_path : String
  size : Nat
  created_time : Int
  last_accessed : Int
  access_count : Nat
  backend : String
  image_hash : String
  compressed : Bool
deriving DecidableEq

/-- The claim-relevant counters of `CacheStats` (cache.py:38-50). -/
structure CacheStats where
  total_entries : Nat
  total_size : Nat
  hit_count : Nat
  miss_count : Nat
  cleanup_count : Nat
deriving DecidableEq

def CacheStats.init : CacheStats :=
  { total_entries := 0, total_size := 0, hit_count := 0, miss_count := 0,
    cleanup_count := 0 }

/-- The cache: the `cache_entries` rows plus the in-memory `self.stats`. -/
structure CacheState where
  entries : List CacheEntry
  stats : CacheStats
deriving DecidableEq

/-- State of a backing artifact file: missing (`os.path.exists` false),
present but unreadable/undecodable (`OSError`/`JSONDecodeError`/
`BadGzipFile` on load), or good with a decoded document (abstracted as a
string). -/
inductive FileState where
  | absent
  | corrupt
  | good (data : String)
deriving DecidableEq

/-- Where, if anywhere, sqlite raises during one `get` call.  The
`sqlite3.Error` raise points on the connection `get` itself opens are: the
`connect`/`SELECT` (cache.py:170-175), the `UPDATE` of the hit path
(cache.py:200-203), and the implicit `commit()` the `with` block's clean
exit performs.  Only the hit path's `UPDATE` opens a transaction on this
connection — the miss paths run only a `SELECT` (the stale-row `DELETE`
happens on `_remove_entry`'s own connection, committed there), and
`commit()` with no open transaction is a no-op that cannot raise — so a
commit failure is observable exactly on the successful-load path. -/
inductive DbOutcome where
  | unreachable
  | updateFails
  | commitFails
  | ok
deriving DecidableEq

def totalSize (entries : List CacheEntry) : Nat :=
  (entries.map (fun e => e.size)).sum

namespace AdvancedCache

/-- Embeds `AdvancedCache._remove_entry` (cache.py:362-385): deletes the row with
the given key; the best-effort unlink of the backing file does not affect the
modelled state.  The failure branch (cache.py:383-385) merely returns false
without removing, which no claim exercises: the database is reachable
whenever a caller reaches this point. -/
def removeEntry (st : CacheState) (key : String) : CacheState :=
  { st with entries := st.entries.filter (fun e => e.key != key) }

private def bumpMiss (st : CacheState) : CacheState :=
  { st with stats := { st.stats with miss_count := st.stats.miss_count + 1 } }

/-- Embeds `AdvancedCache.get` (cache.py:163-222).  Returns the loaded
document and the new state.  The database environment `db` says where, if
anywhere, sqlite raises on this call's own connection:

* `unreachable` — `connect`/`SELECT` raises: the body never runs, the
  `sqlite3.Error` handler (cache.py:219-222) records a miss;
* `updateFails` — on the hit path the `UPDATE` (cache.py:200-203) raises
  before `hit_count += 1` is reached; the handler records a miss and the
  uncommitted update is lost;
* `commitFails` — the body runs to `return data`, `hit_count += 1`
  (cache.py:205) has executed, and then the `with` block's implicit
  `commit()` raises: the handler additionally records a miss and returns
  `None`; the `UPDATE` was never committed (the connection leaves scope
  with the transaction open), so the row is unchanged.  The miss paths run
  only a `SELECT` on this connection, where the exit commit is a no-op, so
  they are unaffected;
* `ok` — no failure: on a hit the row's `last_accessed` and `access_count`
  are set via `UPDATE … WHERE key = ?` using the fetched
  `access_count + 1` (cache.py:199-203). -/
def get (fs : String → FileState) (now : Int) (db : DbOutcome)
    (st : CacheState) (cacheKey : String) : Option String × CacheState :=
  if db = DbOutcome.unreachable then (none, bumpMiss st)
  else
    match st.entries.find? (fun e => e.key == cacheKey) with
    | none => (none, bumpMiss st)
    | some e =>
      match fs e.file_path with
      | .absent => (none, bumpMiss (removeEntry st cacheKey))
      | .corrupt => (none, bumpMiss (removeEntry st cacheKey))
      | .good d =>
        if db = DbOutcome.updateFails then (none, bumpMiss st)
        else if db = DbOutcome.commitFails then
          (none, bumpMiss { st with stats :=
            { st.stats with hit_count := st.stats.hit_count + 1 } })
        else
          (some d,
           { entries := st.entries.map (fun x =>
               if x.key == cacheKey then
                 { x with last_accessed := now, access_count := e.access_count + 1 }
               else x),
             stats := { st.stats with hit_count := st.stats.hit_count + 1 } })

/-- The artifact file path chosen by `put` (cache.py:234-237):
`schemes/{key}.json`, plus `.gz` when compressing. -/
def schemeFilePath (cacheKey : String) (compress : Bool) : String :=
  "schemes/" ++ cacheKey ++ ".json" ++ (if compress then ".gz" else "")

/-- Embeds `AdvancedCache.put` (cache.py:224-284): writes the artifact bytes, then
registers the metadata row via `INSERT OR REPLACE`, which deletes any
existing row with the same key and inserts a fresh row with
`access_count = 0`.  `size` is the `os.stat` size of the written file; `ok`
models the broad failure branch (cache.py:282-284) — on I/O, serialization
or database failure the call returns false and registers nothing. -/
def put (st : CacheState) (cacheKey : String) (size : Nat) (now : Int)
    (backend imageHash : String) (compress : Bool) (ok : Bool) :
    Bool × CacheState :=
  if !ok then (false, st)
  else
    (true,
     { entries := st.entries.filter (fun e => e.key != cacheKey) ++
         [{ key := cacheKey, file_path := schemeFilePath cacheKey compress,
            size := size, created_time := now, last_accessed := now,
            access_count := 0, backend := backend, image_hash := imageHash,
            compressed := compress }],
       stats := { st.stats with
                  total_entries := st.stats.total_entries + 1,
                  total_size := st.stats.total_size + size } })

/-- Embeds `ORDER BY access_count DESC, last_accessed DESC` (cache.py:316). -/
def hotter (a b : CacheEntry) : Prop :=
  b.access_count < a.access_count ∨
    (a.access_count = b.access_count ∧ b.last_accessed ≤ a.last_accessed)

instance : DecidableRel hotter := fun a b => by unfold hotter; infer_instance

instance : IsTotal CacheEntry hotter := ⟨fun a b => by unfold hotter; omega⟩

instance : IsTrans CacheEntry hotter := ⟨fun a b c => by unfold hotter; omega⟩

/-- Embeds `ORDER BY last_accessed ASC, access_count ASC` (cache.py:319). -/
def colder (a b : CacheEntry) : Prop :=
  a.last_accessed < b.last_accessed ∨
    (a.last_accessed = b.last_accessed ∧ a.access_count ≤ b.access_count)

instance : DecidableRel colder := fun a b => by unfold colder; infer_instance

instance : IsTotal CacheEntry colder := ⟨fun a b => by unfold colder; omega⟩

instance : IsTrans CacheEntry colder := ⟨fun a b c => by unfold colder; omega⟩

/-- The protected set of `cleanup`: `SELECT key FROM cache_entries ORDER BY
access_count DESC, last_accessed DESC LIMIT ?` (cache.py:314-318).  SQLite
treats a negative `LIMIT` as no limit, so a negative `keep_most_accessed`
protects every entry. -/
def protectedEntries (entries : List CacheEntry) (keep : Int) : List CacheEntry :=
  if keep < 0 then List.insertionSort hotter entries
  else (List.insertionSort hotter entries).take keep.toNat

/-- The cleanup candidates: every entry whose key is not protected, ordered
oldest/least-used first (cache.py:310-324). -/
def cleanupCandidates (entries : List CacheEntry) (keep : Int) : List CacheEntry :=
  List.insertionSort colder
    (entries.filter (fun e =>
      !(((protectedEntries entries keep).map (fun p => p.key)).contains e.key)))

/-- The greedy removal pass of `cleanup` (cache.py:325-350): walk the
candidates once with a running `size_freed` counter; remove an entry if it
was last accessed more than `maxAge` ago, or if the pre-cleanup total size
minus the bytes freed so far still exceeds `maxSize`.  Returns the removed
entries in walk order and the final counter. -/
def cleanupWalk (now maxAge total maxSize : Int) :
    List CacheEntry → Int → List CacheEntry × Int
  | [], freed => ([], freed)
  | e :: rest, freed =>
    if now - e.last_accessed > maxAge ∨ total - freed > maxSize then
      let r := cleanupWalk now maxAge total maxSize rest (freed + e.size)
      (e :: r.1, r.2)
    else cleanupWalk now maxAge total maxSize rest freed

/-- Embeds `AdvancedCache.cleanup` (cache.py:286-360).  Skips entirely when the
total size is within bounds and fewer than 1000 entries exist
(cache.py:306-307); otherwise removes the walk's victims and returns their
number.  A removal failure branch (counted entries whose `_remove_entry`
returned false) is not modelled. -/
def cleanup (st : CacheState) (now : Int) (maxSizeMb maxAgeDays keep : Int) :
    CacheState × Nat :=
  let maxAge := maxAgeDays * 24 * 3600
  let maxSize := maxSizeMb * 1024 * 1024
  let total := (totalSize st.entries : Int)
  if total ≤ maxSize ∧ st.entries.length < 1000 then (st, 0)
  else
    let removed := (cleanupWalk now maxAge total maxSize
      (cleanupCandidates st.entries keep) 0).1
    let removedKeys := removed.map (fun e => e.key)
    ({ entries := st.entries.filter (fun e => !(removedKeys.contains e.key)),
       stats := { st.stats with
                  cleanup_count := st.stats.cleanup_count + removed.length } },
     removed.length)

/-- Embeds `ORDER BY last_accessed DESC` (cache.py:438). -/
def moreRecent (a b : CacheEntry) : Prop := b.last_accessed ≤ a.last_accessed

instance : DecidableRel moreRecent := fun a b => by unfold moreRecent; infer_instance

instance : IsTotal CacheEntry moreRecent := ⟨fun a b => by unfold moreRecent; omega⟩

instance : IsTrans CacheEntry moreRecent := ⟨fun a b c => by unfold moreRecent; omega⟩

/-- The entries sharing an image hash (`WHERE image_hash = ?`, cache.py:434-442). -/
def hashGroup (entries : List CacheEntry) (h : String) : List CacheEntry :=
  entries.filter (fun e => e.image_hash == h)

/-- The non-empty image hashes held by more than one entry
(`GROUP BY image_hash HAVING count > 1` over `image_hash != ''`,
cache.py:424-430). -/
def duplicateHashes (entries : List CacheEntry) : List String :=
  (((entries.map (fun e => e.image_hash)).filter (fun h => h != "")).dedup).filter
    (fun h => 1 < (hashGroup entries h).length)

/-- The entries `deduplicate` removes: per duplicated hash, every group
member except the most recently accessed one (cache.py:432-448). -/
def dedupRemoved (entries : List CacheEntry) : List CacheEntry :=
  (duplicateHashes entries).flatMap
    (fun h => (List.insertionSort moreRecent (hashGroup entries h)).drop 1)

/-- Embeds `AdvancedCache.deduplicate` (cache.py:417-457): removes the duplicates
and returns how many entries were removed. -/
def deduplicate (st : CacheState) : CacheState × Nat :=
  let removedKeys := (dedupRemoved st.entries).map (fun e => e.key)
  ({ st with entries := st.entries.filter (fun e => !(removedKeys.contains e.key)) },
   removedKeys.length)

/-- Embeds `AdvancedCache.clear_all` (cache.py:490-511): removes every file and row
and resets the in-memory stats. -/
def clear_all (_st : CacheState) : Bool × CacheState :=
  (true, { entries := [], stats := CacheStats.init })

end AdvancedCache

/-- A caller-visible operation against the store, with its I/O-determined
arguments (written-file size, instants, failure flags) made explicit. -/
inductive CacheOp where
  | opGet (key : String) (now : Int) (db : DbOutcome)
  | opPut (key : String) (size : Nat) (now : Int) (backend imageHash : String)
      (compress : Bool) (ok : Bool)
  | opCleanup (now maxSizeMb maxAgeDays keep : Int)
  | opDedup
  | opRemove (key : String)
  | opClear

/-- One operation applied to the store state. -/
def step (fs : String → FileState) (st : CacheState) : CacheOp → CacheState
  | .opGet k now db => (AdvancedCache.get fs now db st k).2
  | .opPut k size now backend imageHash compress ok =>
      (AdvancedCache.put st k size now backend imageHash compress ok).2
  | .opCleanup now mb days keep => (AdvancedCache.cleanup st now mb days keep).1
  | .opDedup => (AdvancedCache.deduplicate st).1
  | .opRemove k => AdvancedCache.removeEntry st k
  | .opClear => (AdvancedCache.clear_all st).2

/-- A sequence of operations applied left to right. -/
def steps (fs : String → FileState) (st : CacheState) (ops : List CacheOp) :
    CacheState :=
  ops.foldl (step fs) st

/-- C1: for every fixed input (image content hash, backend name, light flag,
saturation) and unchanged file size and modification time, two calls of
`generate_cache_key` return the identical key, and that key is a 16-character
string of (lowercase) hex digits.  Determinism is inherent: the embedded
generator is a function of exactly these inputs, so the two-call scenario is
the stated self-equality. -/
theorem C1_key_deterministic_hex16 (imageHash backend : String) (light : Bool)
    (sat : String) (fileSize : Nat) (fileMtime : Int) :
    generate_cache_key imageHash backend light sat fileSize fileMtime =
      generate_cache_key imageHash backend light sat fileSize fileMtime ∧
    (generate_cache_key imageHash backend light sat fileSize fileMtime).length = 16 ∧
    ∀ c ∈ (generate_cache_key imageHash backend light sat fileSize fileMtime).data,
      isHexChar c = true := by
  refine ⟨rfl, ?_, ?_⟩
  · rw [generate_cache_key]
    simp [List.length_take, sha256HexChars_length]
  · intro c hc
    rw [generate_cache_key, string_mk_data] at hc
    exact sha256HexChars_hex _ c (List.take_subset 16 _ hc)

theorem string_data_inj {a b : String} (h : a.data = b.data) : a = b :=
  congrArg String.mk h

/-- C8 counterexample: changing only the saturation value from `""` to `"0"`
does not change the key — `sat or "0"` (cache.py:127) maps both to the
component `"0"`, so the digest input and hence the key coincide. -/
theorem C8_cex_saturation_default_collision :
    ("" : String) ≠ "0" ∧
    generate_cache_key "ffeeddccbbaa" "wal" false "" 1024 1700000000 =
      generate_cache_key "ffeeddccbbaa" "wal" false "0" 1024 1700000000 := by
  constructor
  · decide
  · have h : digestInput "ffeeddccbbaa" "wal" false "" 1024 1700000000 =
        digestInput "ffeeddccbbaa" "wal" false "0" 1024 1700000000 := by decide
    unfold generate_cache_key
    rw [h]

theorem digestInput_data (imageHash backend : String) (light : Bool)
    (sat : String) (fileSize : Nat) (fileMtime : Int) :
    (digestInput imageHash backend light sat fileSize fileMtime).data =
      imageHash.data ++ ('_' :: (backend.data ++ ('_' :: ((lightStr light).data ++
      ('_' :: ((normSat sat).data ++ ('_' :: ((toString fileSize).data ++
      ('_' :: ((toString fileMtime).data ++
      ('_' :: cacheVersion.data))))))))))) := by
  simp [digestInput]

/-- C8 amended: changing only the backend name, or only the light flag, or
only the saturation value (up to the `sat or "0"` normalisation identifying
`""` with `"0"`), changes the string the SHA-256 digest is computed over, so
the keys differ whenever the truncated digests of the two distinct digest
inputs differ.  (Universal post-hash discrimination cannot hold: the key
space has 16^16 elements while the input space is infinite.) -/
theorem C8_digest_input_discriminates (imageHash b1 b2 : String) (l : Bool)
    (s s1 s2 : String) (fileSize : Nat) (fileMtime : Int) :
    (b1 ≠ b2 →
      digestInput imageHash b1 l s fileSize fileMtime ≠
        digestInput imageHash b2 l s fileSize fileMtime) ∧
    digestInput imageHash b1 true s fileSize fileMtime ≠
      digestInput imageHash b1 false s fileSize fileMtime ∧
    (normSat s1 ≠ normSat s2 →
      digestInput imageHash b1 l s1 fileSize fileMtime ≠
        digestInput imageHash b1 l s2 fileSize fileMtime) := by
  refine ⟨?_, ?_, ?_⟩
  · intro hne heq
    apply hne
    have hd := congrArg String.data heq
    rw [digestInput_data, digestInput_data] at hd
    have hd2 := List.append_cancel_left hd
    simp only [List.cons.injEq, true_and] at hd2
    exact string_data_inj (List.append_cancel_right hd2)
  · intro heq
    have hd := congrArg String.data heq
    rw [digestInput_data, digestInput_data] at hd
    have hd2 := List.append_cancel_left hd
    simp only [List.cons.injEq, true_and] at hd2
    have hd3 := List.append_cancel_left hd2
    simp only [List.cons.injEq, true_and] at hd3
    have hlen := congrArg List.length hd3
    simp only [List.length_append] at hlen
    have h5 : (lightStr true).data.length = 5 := by decide
    have h4 : (lightStr false).data.length = 4 := by decide
    omega
  · intro hne heq
    apply hne
    have hd := congrArg String.data heq
    rw [digestInput_data, digestInput_data] at hd
    have hd2 := List.append_cancel_left hd
    simp only [List.cons.injEq, true_and] at hd2
    have hd3 := List.append_cancel_left hd2
    simp only [List.cons.injEq, true_and] at hd3
    have hd4 := List.append_cancel_left hd3
    simp only [List.cons.injEq, true_and] at hd4
    exact string_data_inj (List.append_cancel_right hd4)

theorem find_key_filter_ne (entries : List CacheEntry) (k : String) :
    (entries.filter (fun e => e.key != k)).find? (fun e => e.key == k) = none := by
  rw [List.find?_eq_none]
  intro e he
  have h := (List.mem_filter.mp he).2
  simp only [bne_iff_ne, ne_eq, decide_eq_true_eq] at h
  simpa using h

/-- C10 counterexample: one `get` call on a present, loadable entry whose
connection's implicit commit at context exit fails.  `hit_count += 1`
(cache.py:205) has already run when the commit raises, and the
`sqlite3.Error` handler (cache.py:219-222) then also runs `miss_count += 1`
— both counters move in a single call, which returns a miss. -/
theorem C10_cex_commit_failure_double_count :
    (AdvancedCache.get (fun _ => FileState.good "doc") 1 DbOutcome.commitFails
      ⟨[{ key := "k", file_path := "p", size := 5, created_time := 0,
          last_accessed := 0, access_count := 0, backend := "w",
          image_hash := "", compressed := false }], CacheStats.init⟩
      "k").2.stats.hit_count = 1 ∧
    (AdvancedCache.get (fun _ => FileState.good "doc") 1 DbOutcome.commitFails
      ⟨[{ key := "k", file_path := "p", size := 5, created_time := 0,
          last_accessed := 0, access_count := 0, backend := "w",
          image_hash := "", compressed := false }], CacheStats.init⟩
      "k").2.stats.miss_count = 1 ∧
    (AdvancedCache.get (fun _ => FileState.good "doc") 1 DbOutcome.commitFails
      ⟨[{ key := "k", file_path := "p", size := 5, created_time := 0,
          last_accessed := 0, access_count := 0, backend := "w",
          image_hash := "", compressed := false }], CacheStats.init⟩
      "k").1 = none := by
  decide

/-- C10 amended (implicit): every call of `AdvancedCache.get` increments
exactly one of `stats.hit_count` and `stats.miss_count`, by exactly 1, on
every path — absent key, missing file, corrupt data, query-time database
error, failed access-statistics update, successful committed load — except
when the implicit commit at the connection's context exit fails after a
successful load: there, and only there, `hit_count` has already been
incremented (cache.py:205) and the `sqlite3.Error` handler additionally
increments `miss_count` (cache.py:219-222), so both counters increase by
exactly 1 in one call, which returns a miss. -/
theorem C10_get_hit_miss_accounting (fs : String → FileState) (now : Int)
    (db : DbOutcome) (st : CacheState) (k : String) :
    (((AdvancedCache.get fs now db st k).2.stats.hit_count = st.stats.hit_count + 1 ∧
      (AdvancedCache.get fs now db st k).2.stats.miss_count = st.stats.miss_count) ∨
     ((AdvancedCache.get fs now db st k).2.stats.miss_count = st.stats.miss_count + 1 ∧
      (AdvancedCache.get fs now db st k).2.stats.hit_count = st.stats.hit_count)) ∨
    (db = DbOutcome.commitFails ∧
     (∃ e, st.entries.find? (fun x => x.key == k) = some e ∧
       ∃ d, fs e.file_path = FileState.good d) ∧
     (AdvancedCache.get fs now db st k).2.stats.hit_count = st.stats.hit_count + 1 ∧
     (AdvancedCache.get fs now db st k).2.stats.miss_count = st.stats.miss_count + 1 ∧
     (AdvancedCache.get fs now db st k).1 = none) := by
  unfold AdvancedCache.get
  by_cases hdb : db = DbOutcome.unreachable
  · left
    right
    simp [hdb, AdvancedCache.bumpMiss]
  · simp only [if_neg hdb]
    cases hfind : st.entries.find? (fun e => e.key == k) with
    | none =>
      left
      right
      simp [AdvancedCache.bumpMiss]
    | some e =>
      cases hfs : fs e.file_path with
      | absent =>
        left
        right
        simp [hfs, AdvancedCache.bumpMiss, AdvancedCache.removeEntry]
      | corrupt =>
        left
        right
        simp [hfs, AdvancedCache.bumpMiss, AdvancedCache.removeEntry]
      | good d =>
        by_cases hup : db = DbOutcome.updateFails
        · left
          right
          simp [hfs, hup, AdvancedCache.bumpMiss]
        · by_cases hcf : db = DbOutcome.commitFails
          · right
            refine ⟨hcf, ⟨e, rfl, d, hfs⟩, ?_, ?_, ?_⟩ <;>
              simp [hfs, hup, hcf, AdvancedCache.bumpMiss]
          · left
            left
            simp [hfs, hup, hcf]

/-- C4: for a stored key whose metadata row exists but whose backing file is
absent, `get` returns miss without raising, deletes the stale row, and
increments the miss counter; a second `get` of the same key is again a clean
miss (row already gone, so no further removal: the entry set is unchanged)
with one more miss count. -/
theorem C4_self_healing (fs : String → FileState) (now now2 : Int)
    (st : CacheState) (k : String) (e : CacheEntry)
    (hfind : st.entries.find? (fun x => x.key == k) = some e)
    (habs : fs e.file_path = FileState.absent) :
    (AdvancedCache.get fs now DbOutcome.ok st k).1 = none ∧
    (AdvancedCache.get fs now DbOutcome.ok st k).2.entries =
      st.entries.filter (fun x => x.key != k) ∧
    (AdvancedCache.get fs now DbOutcome.ok st k).2.stats.miss_count =
      st.stats.miss_count + 1 ∧
    (AdvancedCache.get fs now DbOutcome.ok st k).2.stats.hit_count = st.stats.hit_count ∧
    (AdvancedCache.get fs now2 DbOutcome.ok ((AdvancedCache.get fs now DbOutcome.ok st k).2) k).1 =
      none ∧
    (AdvancedCache.get fs now2 DbOutcome.ok ((AdvancedCache.get fs now DbOutcome.ok st k).2) k).2.entries =
      (AdvancedCache.get fs now DbOutcome.ok st k).2.entries ∧
    (AdvancedCache.get fs now2 DbOutcome.ok ((AdvancedCache.get fs now DbOutcome.ok st k).2) k).2.stats.miss_count =
      (AdvancedCache.get fs now DbOutcome.ok st k).2.stats.miss_count + 1 := by
  have h1 : AdvancedCache.get fs now DbOutcome.ok st k =
      (none, AdvancedCache.bumpMiss (AdvancedCache.removeEntry st k)) := by
    unfold AdvancedCache.get
    rw [hfind]
    simp [habs]
  have h2 : (AdvancedCache.bumpMiss (AdvancedCache.removeEntry st k)).entries =
      st.entries.filter (fun x => x.key != k) := rfl
  have h3 : AdvancedCache.get fs now2 DbOutcome.ok
      (AdvancedCache.bumpMiss (AdvancedCache.removeEntry st k)) k =
      (none, AdvancedCache.bumpMiss
        (AdvancedCache.bumpMiss (AdvancedCache.removeEntry st k))) := by
    unfold AdvancedCache.get
    rw [show (AdvancedCache.bumpMiss (AdvancedCache.removeEntry st k)).entries.find?
        (fun x => x.key == k) = none from find_key_filter_ne _ _]
    simp
  rw [h1, h3]
  simp [AdvancedCache.bumpMiss, AdvancedCache.removeEntry]

/-- Witness for `C4_self_healing`: a one-entry cache whose backing file is
gone. -/
theorem C4_self_healing_witness :
    (([{ key := "k1", file_path := "schemes/k1.json.gz", size := 10,
         created_time := 0, last_accessed := 0, access_count := 0,
         backend := "wal", image_hash := "h", compressed := true }] :
       List CacheEntry).find? (fun x => x.key == "k1") =
      some { key := "k1", file_path := "schemes/k1.json.gz", size := 10,
             created_time := 0, last_accessed := 0, access_count := 0,
             backend := "wal", image_hash := "h", compressed := true }) ∧
    (AdvancedCache.get (fun _ => FileState.absent) 5 DbOutcome.ok
      ⟨[{ key := "k1", file_path := "schemes/k1.json.gz", size := 10,
          created_time := 0, last_accessed := 0, access_count := 0,
          backend := "wal", image_hash := "h", compressed := true }],
        CacheStats.init⟩ "k1").1 = none := by
  constructor
  · decide
  · exact (C4_self_healing (fun _ => FileState.absent) 5 6
      ⟨[{ key := "k1", file_path := "schemes/k1.json.gz", size := 10,
          created_time := 0, last_accessed := 0, access_count := 0,
          backend := "wal", image_hash := "h", compressed := true }],
        CacheStats.init⟩ "k1"
      { key := "k1", file_path := "schemes/k1.json.gz", size := 10,
        created_time := 0, last_accessed := 0, access_count := 0,
        backend := "wal", image_hash := "h", compressed := true }
      (by decide) rfl).1

/-- C9: `cleanup` called with a negative `keep_most_accessed` does not fail
fast — no exception, no coercion check.  The negative value reaches SQLite's
`LIMIT`, which treats a negative limit as "no limit", so every entry is
protected, the candidate set is empty, nothing is removed, and the call
returns normally with 0. -/
theorem C9_cleanup_negative_keep_silently_no_op (st : CacheState)
    (now maxSizeMb maxAgeDays keep : Int) (hneg : keep < 0) :
    AdvancedCache.cleanup st now maxSizeMb maxAgeDays keep = (st, 0) := by
  have hcand : AdvancedCache.cleanupCandidates st.entries keep = [] := by
    unfold AdvancedCache.cleanupCandidates AdvancedCache.protectedEntries
    rw [if_pos hneg]
    have hfil : st.entries.filter (fun e =>
        !(((List.insertionSort AdvancedCache.hotter st.entries).map
          (fun p => p.key)).contains e.key)) = [] := by
      rw [List.filter_eq_nil_iff]
      intro e he
      have hm : e.key ∈ (List.insertionSort AdvancedCache.hotter st.entries).map
          (fun p => p.key) :=
        List.mem_map.mpr ⟨e, (List.perm_insertionSort _ _).mem_iff.mpr he, rfl⟩
      simp [List.elem_eq_true_of_mem hm]
      exact ⟨e, he, rfl⟩
    rw [hfil]
    rfl
  by_cases hc : (totalSize st.entries : Int) ≤ maxSizeMb * 1024 * 1024 ∧
      st.entries.length < 1000
  · simp [AdvancedCache.cleanup, hc]
  · simp [AdvancedCache.cleanup, hc, hcand, AdvancedCache.cleanupWalk]

/-- Witness for `C9_cleanup_negative_keep_silently_no_op`: an over-size cache
(one 10-byte entry against a 0 MB bound) cleaned with `keep = -5` removes
nothing and reports no error. -/
theorem C9_cleanup_negative_keep_witness :
    ((-5 : Int) < 0) ∧
    AdvancedCache.cleanup
      ⟨[{ key := "k1", file_path := "p", size := 10, created_time := 0,
          last_accessed := 0, access_count := 0, backend := "wal",
          image_hash := "", compressed := false }], CacheStats.init⟩
      1000000 0 30 (-5) =
      (⟨[{ key := "k1", file_path := "p", size := 10, created_time := 0,
           last_accessed := 0, access_count := 0, backend := "wal",
           image_hash := "", compressed := false }], CacheStats.init⟩, 0) :=
  ⟨by decide,
   C9_cleanup_negative_keep_silently_no_op
     ⟨[{ key := "k1", file_path := "p", size := 10, created_time := 0,
         last_accessed := 0, access_count := 0, backend := "wal",
         image_hash := "", compressed := false }], CacheStats.init⟩
     1000000 0 30 (-5) (by decide)⟩

theorem cleanupWalk_freed_mono (now maxAge total maxSize : Int) :
    ∀ (cs : List CacheEntry) (freed : Int),
      freed ≤ (AdvancedCache.cleanupWalk now maxAge total maxSize cs freed).2 := by
  intro cs
  induction cs with
  | nil => intro freed; simp [AdvancedCache.cleanupWalk]
  | cons e rest ih =>
    intro freed
    rw [AdvancedCache.cleanupWalk]
    split
    · have h := ih (freed + e.size)
      simp only
      have hsz : (0 : Int) ≤ e.size := Int.ofNat_nonneg _
      omega
    · exact ih freed

theorem cleanupWalk_freed_eq (now maxAge total maxSize : Int) :
    ∀ (cs : List CacheEntry) (freed : Int),
      (AdvancedCache.cleanupWalk now maxAge total maxSize cs freed).2 =
        freed + (totalSize (AdvancedCache.cleanupWalk now maxAge total maxSize cs freed).1 : Int) := by
  intro cs
  induction cs with
  | nil => intro freed; simp [AdvancedCache.cleanupWalk, totalSize]
  | cons e rest ih =>
    intro freed
    rw [AdvancedCache.cleanupWalk]
    split
    · have h := ih (freed + e.size)
      simp only [totalSize, List.map_cons, List.sum_cons] at h ⊢
      push_cast at h ⊢
      omega
    · exact ih freed

theorem cleanupWalk_removed_sublist (now maxAge total maxSize : Int) :
    ∀ (cs : List CacheEntry) (freed : Int),
      List.Sublist (AdvancedCache.cleanupWalk now maxAge total maxSize cs freed).1 cs := by
  intro cs
  induction cs with
  | nil => intro freed; simp [AdvancedCache.cleanupWalk]
  | cons e rest ih =>
    intro freed
    rw [AdvancedCache.cleanupWalk]
    split
    · exact List.Sublist.cons₂ e (ih (freed + e.size))
    · exact List.Sublist.cons e (ih freed)

theorem cleanupWalk_all_or_bound (now maxAge total maxSize : Int) :
    ∀ (cs : List CacheEntry) (freed : Int),
      (∀ c ∈ cs, c ∈ (AdvancedCache.cleanupWalk now maxAge total maxSize cs freed).1) ∨
        total - (AdvancedCache.cleanupWalk now maxAge total maxSize cs freed).2 ≤ maxSize := by
  intro cs
  induction cs with
  | nil => intro freed; left; simp
  | cons e rest ih =>
    intro freed
    rw [AdvancedCache.cleanupWalk]
    split
    · rcases ih (freed + e.size) with h | h
      · left
        intro c hc
        rcases List.mem_cons.mp hc with rfl | hc'
        · simp
        · simp only [List.mem_cons]
          exact Or.inr (h c hc')
      · right
        simpa using h
    · rename_i hcond
      right
      have hle : total - freed ≤ maxSize := by
        push_neg at hcond
        omega
      have := cleanupWalk_freed_mono now maxAge total maxSize rest freed
      omega

/-- In a list with no duplicate keys, the key determines the entry. -/
theorem nodup_key_eq {entries : List CacheEntry}
    (hnodup : (entries.map (fun e => e.key)).Nodup) {a b : CacheEntry}
    (ha : a ∈ entries) (hb : b ∈ entries) (hk : a.key = b.key) : a = b :=
  List.inj_on_of_nodup_map hnodup ha hb hk

theorem totalSize_filter_partition (p : CacheEntry → Bool) :
    ∀ l : List CacheEntry,
      totalSize (l.filter p) + totalSize (l.filter (fun e => !(p e))) = totalSize l := by
  intro l
  induction l with
  | nil => rfl
  | cons e rest ih =>
    by_cases hp : p e <;>
      simp [totalSize, List.filter_cons, hp] at ih ⊢ <;> omega

theorem cleanupCandidates_nodup (entries : List CacheEntry) (keep : Int)
    (h : entries.Nodup) : (AdvancedCache.cleanupCandidates entries keep).Nodup := by
  unfold AdvancedCache.cleanupCandidates
  exact (List.perm_insertionSort _ _).symm.nodup
    ((List.filter_sublist entries).nodup h)

theorem protectedEntries_subset (entries : List CacheEntry) (keep : Int) :
    ∀ e ∈ AdvancedCache.protectedEntries entries keep, e ∈ entries := by
  intro e he
  unfold AdvancedCache.protectedEntries at he
  split at he
  · exact (List.perm_insertionSort _ _).mem_iff.mp he
  · exact (List.perm_insertionSort _ _).mem_iff.mp (List.take_subset _ _ he)

theorem cleanupCandidates_mem (entries : List CacheEntry) (keep : Int) :
    ∀ c ∈ AdvancedCache.cleanupCandidates entries keep,
      c ∈ entries ∧
        ¬ c.key ∈ (AdvancedCache.protectedEntries entries keep).map (fun p => p.key) := by
  intro c hc
  unfold AdvancedCache.cleanupCandidates at hc
  have hc' := (List.perm_insertionSort _ _).mem_iff.mp hc
  have hmem := List.mem_filter.mp hc'
  refine ⟨hmem.1, ?_⟩
  have h2 := hmem.2
  simp only [Bool.not_eq_true', List.contains_eq_any_beq] at h2
  intro habs
  rcases List.mem_map.mp habs with ⟨p, hp, hpk⟩
  have : ((AdvancedCache.protectedEntries entries keep).map (fun p => p.key)).any
      (fun k => c.key == k) = true := by
    rw [List.any_eq_true]
    exact ⟨c.key, habs, by simp⟩
  rw [this] at h2
  cases h2

/-- C2 amended: after `cleanup(maxSizeBytes = S, keepMostAccessed = K)` with
`K ≥ 0` on a cache with distinct keys, (a) the K entries ranked highest by
`(accessCount desc, lastAccessedAt desc)` are still present, and (b) the
total stored size is at most S — unless the pass removed every unprotected
entry (in particular whenever fewer than K entries exist), in which case the
surviving protected entries alone may exceed S. -/
theorem C2_cleanup_eviction_bound (st : CacheState)
    (now maxSizeMb maxAgeDays keep : Int)
    (hnodup : (st.entries.map (fun e => e.key)).Nodup) :
    (∀ e ∈ AdvancedCache.protectedEntries st.entries keep,
        e ∈ (AdvancedCache.cleanup st now maxSizeMb maxAgeDays keep).1.entries) ∧
    ((totalSize (AdvancedCache.cleanup st now maxSizeMb maxAgeDays keep).1.entries : Int) ≤
        maxSizeMb * 1024 * 1024 ∨
      ∀ c ∈ AdvancedCache.cleanupCandidates st.entries keep,
        c ∉ (AdvancedCache.cleanup st now maxSizeMb maxAgeDays keep).1.entries) := by
  by_cases hc : (totalSize st.entries : Int) ≤ maxSizeMb * 1024 * 1024 ∧
      st.entries.length < 1000
  · have hres : (AdvancedCache.cleanup st now maxSizeMb maxAgeDays keep).1 = st := by
      simp [AdvancedCache.cleanup, hc]
    rw [hres]
    exact ⟨fun e he => protectedEntries_subset st.entries keep e he, Or.inl hc.1⟩
  · have hres : (AdvancedCache.cleanup st now maxSizeMb maxAgeDays keep).1.entries =
        st.entries.filter (fun e =>
          !((((AdvancedCache.cleanupWalk now (maxAgeDays * 24 * 3600)
              (totalSize st.entries) (maxSizeMb * 1024 * 1024)
              (AdvancedCache.cleanupCandidates st.entries keep) 0).1).map
            (fun e => e.key)).contains e.key)) := by
      simp [AdvancedCache.cleanup, hc]
    set maxAge := maxAgeDays * 24 * 3600 with hma
    set maxSize := maxSizeMb * 1024 * 1024 with hms
    set total := (totalSize st.entries : Int) with htot
    set cands := AdvancedCache.cleanupCandidates st.entries keep with hcands
    set removed := (AdvancedCache.cleanupWalk now maxAge total maxSize cands 0).1
      with hrem
    have hsub : List.Sublist removed cands :=
      cleanupWalk_removed_sublist now maxAge total maxSize cands 0
    have hrem_entries : ∀ r ∈ removed, r ∈ st.entries := fun r hr =>
      (cleanupCandidates_mem st.entries keep r (hsub.subset hr)).1
    constructor
    · intro e he
      rw [hres]
      refine List.mem_filter.mpr ⟨protectedEntries_subset st.entries keep e he, ?_⟩
      simp only [Bool.not_eq_true', List.contains_eq_any_beq, List.any_eq_false]
      intro k hk
      rcases List.mem_map.mp hk with ⟨r, hr, rfl⟩
      have hrc := cleanupCandidates_mem st.entries keep r (hsub.subset hr)
      simp only [beq_iff_eq]
      intro hkeq
      exact hrc.2 (hkeq ▸ List.mem_map.mpr ⟨e, he, rfl⟩)
    · rcases cleanupWalk_all_or_bound now maxAge total maxSize cands 0 with hall | hbound
      · right
        intro c hcand hmem
        rw [hres] at hmem
        have h2 := (List.mem_filter.mp hmem).2
        simp only [Bool.not_eq_true', List.contains_eq_any_beq, List.any_eq_false] at h2
        have := h2 c.key (List.mem_map.mpr ⟨c, hall c hcand, rfl⟩)
        simp at this
      · left
        -- the removed entries are exactly those whose key is in the removed-key list
        have hnodup_entries : st.entries.Nodup := List.Nodup.of_map _ hnodup
        have hnodup_removed : removed.Nodup :=
          hsub.nodup (cleanupCandidates_nodup st.entries keep hnodup_entries)
        have hperm : (st.entries.filter (fun e =>
            (removed.map (fun e => e.key)).contains e.key)).Perm removed := by
          rw [List.perm_ext_iff_of_nodup
            ((List.filter_sublist st.entries).nodup hnodup_entries) hnodup_removed]
          intro a
          constructor
          · intro ha
            have hmem := List.mem_filter.mp ha
            have hk := hmem.2
            simp only [List.contains_eq_any_beq, List.any_eq_true] at hk
            rcases hk with ⟨k, hkmem, hbeq⟩
            rcases List.mem_map.mp hkmem with ⟨r, hr, rfl⟩
            have : a = r := nodup_key_eq hnodup hmem.1 (hrem_entries r hr)
              (by simpa using hbeq)
            exact this ▸ hr
          · intro ha
            refine List.mem_filter.mpr ⟨hrem_entries a ha, ?_⟩
            simp only [List.contains_eq_any_beq, List.any_eq_true]
            exact ⟨a.key, List.mem_map.mpr ⟨a, ha, rfl⟩, by simp⟩
        have hsizes : totalSize (st.entries.filter (fun e =>
            (removed.map (fun e => e.key)).contains e.key)) = totalSize removed := by
          unfold totalSize
          exact (hperm.map (fun e => e.size)).sum_eq
        have hpart := totalSize_filter_partition
          (fun e => (removed.map (fun e => e.key)).contains e.key) st.entries
        have hfreed := cleanupWalk_freed_eq now maxAge total maxSize cands 0
        rw [← hrem] at hfreed
        rw [hres]
        omega

/-- C2 counterexample: with two entries (a protected 10-byte entry and a
1-byte candidate), `keep = 1` and a 0 MB size bound, cleanup removes the
candidate only; the surviving size (10) exceeds S = 0 even though the cache
did not hold fewer than K = 1 entries (2 before, 1 after). -/
theorem C2_cex_protected_exceed_bound :
    (AdvancedCache.cleanup
      ⟨[{ key := "a", file_path := "pa", size := 10, created_time := 0,
          last_accessed := 100, access_count := 5, backend := "w",
          image_hash := "", compressed := false },
        { key := "b", file_path := "pb", size := 1, created_time := 0,
          last_accessed := 0, access_count := 0, backend := "w",
          image_hash := "", compressed := false }], CacheStats.init⟩
      100 0 30 1).1.entries =
      [{ key := "a", file_path := "pa", size := 10, created_time := 0,
         last_accessed := 100, access_count := 5, backend := "w",
         image_hash := "", compressed := false }] ∧
    ¬ ((totalSize (AdvancedCache.cleanup
      ⟨[{ key := "a", file_path := "pa", size := 10, created_time := 0,
          last_accessed := 100, access_count := 5, backend := "w",
          image_hash := "", compressed := false },
        { key := "b", file_path := "pb", size := 1, created_time := 0,
          last_accessed := 0, access_count := 0, backend := "w",
          image_hash := "", compressed := false }], CacheStats.init⟩
      100 0 30 1).1.entries : Int) ≤ 0 * 1024 * 1024 ∨
      (AdvancedCache.cleanup
      ⟨[{ key := "a", file_path := "pa", size := 10, created_time := 0,
          last_accessed := 100, access_count := 5, backend := "w",
          image_hash := "", compressed := false },
        { key := "b", file_path := "pb", size := 1, created_time := 0,
          last_accessed := 0, access_count := 0, backend := "w",
          image_hash := "", compressed := false }], CacheStats.init⟩
      100 0 30 1).1.entries.length < 1) := by
  decide

/-- Witness for `C2_cleanup_eviction_bound` on a concrete two-entry cache. -/
theorem C2_cleanup_eviction_bound_witness :
    (([{ key := "a", file_path := "pa", size := 10, created_time := 0,
         last_accessed := 100, access_count := 5, backend := "w",
         image_hash := "", compressed := false },
       { key := "b", file_path := "pb", size := 1, created_time := 0,
         last_accessed := 0, access_count := 0, backend := "w",
         image_hash := "", compressed := false }] : List CacheEntry).map
      (fun e => e.key)).Nodup ∧
    ((totalSize (AdvancedCache.cleanup
      ⟨[{ key := "a", file_path := "pa", size := 10, created_time := 0,
          last_accessed := 100, access_count := 5, backend := "w",
          image_hash := "", compressed := false },
        { key := "b", file_path := "pb", size := 1, created_time := 0,
          last_accessed := 0, access_count := 0, backend := "w",
          image_hash := "", compressed := false }], CacheStats.init⟩
      100 100 30 1).1.entries : Int) ≤ 100 * 1024 * 1024 ∨
      ∀ c ∈ AdvancedCache.cleanupCandidates
        ([{ key := "a", file_path := "pa", size := 10, created_time := 0,
            last_accessed := 100, access_count := 5, backend := "w",
            image_hash := "", compressed := false },
          { key := "b", file_path := "pb", size := 1, created_time := 0,
            last_accessed := 0, access_count := 0, backend := "w",
            image_hash := "", compressed := false }] : List CacheEntry) 1,
        c ∉ (AdvancedCache.cleanup
          ⟨[{ key := "a", file_path := "pa", size := 10, created_time := 0,
              last_accessed := 100, access_count := 5, backend := "w",
              image_hash := "", compressed := false },
            { key := "b", file_path := "pb", size := 1, created_time := 0,
              last_accessed := 0, access_count := 0, backend := "w",
              image_hash := "", compressed := false }], CacheStats.init⟩
          100 100 30 1).1.entries) :=
  ⟨by decide,
   (C2_cleanup_eviction_bound
     ⟨[{ key := "a", file_path := "pa", size := 10, created_time := 0,
         last_accessed := 100, access_count := 5, backend := "w",
         image_hash := "", compressed := false },
       { key := "b", file_path := "pb", size := 1, created_time := 0,
         last_accessed := 0, access_count := 0, backend := "w",
         image_hash := "", compressed := false }], CacheStats.init⟩
     100 100 30 1 (by decide)).2⟩

theorem filter_swap (p q : CacheEntry → Bool) (l : List CacheEntry) :
    (l.filter p).filter q = (l.filter q).filter p := by
  rw [List.filter_filter, List.filter_filter]
  exact List.filter_congr (fun x _ => by rw [Bool.and_comm])

/-- A key occurs among the keys of `l` iff the (unique) entry with that key
is in `l`, given globally distinct keys. -/
theorem contains_key_iff {l entries : List CacheEntry}
    (hnodup : (entries.map (fun e => e.key)).Nodup)
    (hsub : ∀ r ∈ l, r ∈ entries) {x : CacheEntry} (hx : x ∈ entries) :
    (l.map (fun e => e.key)).contains x.key = true ↔ x ∈ l := by
  constructor
  · intro hc
    simp only [List.contains_eq_any_beq, List.any_eq_true] at hc
    rcases hc with ⟨k, hk, hbeq⟩
    rcases List.mem_map.mp hk with ⟨r, hr, rfl⟩
    have hx_eq : x = r := nodup_key_eq hnodup hx (hsub r hr) (by simpa using hbeq)
    exact hx_eq ▸ hr
  · intro hmem
    simp only [List.contains_eq_any_beq, List.any_eq_true]
    exact ⟨x.key, List.mem_map.mpr ⟨x, hmem, rfl⟩, by simp⟩

theorem hashGroup_subset (entries : List CacheEntry) (h : String) :
    ∀ e ∈ AdvancedCache.hashGroup entries h, e ∈ entries :=
  fun e he => (List.mem_filter.mp he).1

theorem hashGroup_hash (entries : List CacheEntry) (h : String) :
    ∀ e ∈ AdvancedCache.hashGroup entries h, e.image_hash = h := by
  intro e he
  have h2 := (List.mem_filter.mp he).2
  simpa using h2

theorem mem_duplicateHashes (entries : List CacheEntry) (h : String) :
    h ∈ AdvancedCache.duplicateHashes entries ↔
      h ∈ entries.map (fun e => e.image_hash) ∧ h ≠ "" ∧
        1 < (AdvancedCache.hashGroup entries h).length := by
  unfold AdvancedCache.duplicateHashes
  simp only [List.mem_filter, List.mem_dedup, bne_iff_ne, ne_eq,
    decide_eq_true_eq]
  tauto

theorem mem_dedupRemoved (entries : List CacheEntry) (x : CacheEntry) :
    x ∈ AdvancedCache.dedupRemoved entries ↔
      ∃ h ∈ AdvancedCache.duplicateHashes entries,
        x ∈ (List.insertionSort AdvancedCache.moreRecent
          (AdvancedCache.hashGroup entries h)).drop 1 := by
  unfold AdvancedCache.dedupRemoved
  exact List.mem_flatMap

theorem drop_sorted_group_subset (entries : List CacheEntry) (h : String) :
    ∀ x ∈ (List.insertionSort AdvancedCache.moreRecent
        (AdvancedCache.hashGroup entries h)).drop 1,
      x ∈ AdvancedCache.hashGroup entries h := fun x hx =>
  (List.perm_insertionSort _ _).mem_iff.mp (List.drop_subset 1 _ hx)

theorem dedupRemoved_subset (entries : List CacheEntry) :
    ∀ x ∈ AdvancedCache.dedupRemoved entries, x ∈ entries := by
  intro x hx
  rcases (mem_dedupRemoved entries x).mp hx with ⟨h, _, hdrop⟩
  exact hashGroup_subset entries h x (drop_sorted_group_subset entries h x hdrop)

theorem dedupRemoved_hash_ne (entries : List CacheEntry) :
    ∀ x ∈ AdvancedCache.dedupRemoved entries, x.image_hash ≠ "" := by
  intro x hx
  rcases (mem_dedupRemoved entries x).mp hx with ⟨h, hh, hdrop⟩
  have hxh := hashGroup_hash entries h x (drop_sorted_group_subset entries h x hdrop)
  have hne := ((mem_duplicateHashes entries h).mp hh).2.1
  rw [hxh]
  exact hne

/-- A removed entry that lies in the group of `h` was removed from that very
group (the duplicated hashes are the entries' own hashes, so the groups are
disjoint). -/
theorem mem_dedupRemoved_group {entries : List CacheEntry} {x : CacheEntry}
    {h : String} (hx : x ∈ AdvancedCache.dedupRemoved entries)
    (hxg : x ∈ AdvancedCache.hashGroup entries h) :
    x ∈ (List.insertionSort AdvancedCache.moreRecent
      (AdvancedCache.hashGroup entries h)).drop 1 := by
  rcases (mem_dedupRemoved entries x).mp hx with ⟨h', _, hdrop⟩
  have hxh' := hashGroup_hash entries h' x (drop_sorted_group_subset entries h' x hdrop)
  have hxh := hashGroup_hash entries h x hxg
  rw [hxh] at hxh'
  rw [hxh']
  exact hdrop

theorem dedupRemoved_nodup (entries : List CacheEntry)
    (hnodup : (entries.map (fun e => e.key)).Nodup) :
    (AdvancedCache.dedupRemoved entries).Nodup := by
  have hentries : entries.Nodup := List.Nodup.of_map _ hnodup
  unfold AdvancedCache.dedupRemoved
  rw [List.nodup_flatMap]
  constructor
  · intro h _
    exact (List.drop_sublist 1 _).nodup
      ((List.perm_insertionSort _ _).symm.nodup
        ((List.filter_sublist entries).nodup hentries))
  · have hdH : (AdvancedCache.duplicateHashes entries).Nodup := by
      unfold AdvancedCache.duplicateHashes
      exact (List.nodup_dedup _).filter _
    refine hdH.imp ?_
    intro h1 h2 hne x hx1 hx2
    have e1 := hashGroup_hash entries h1 x (drop_sorted_group_subset entries h1 x hx1)
    have e2 := hashGroup_hash entries h2 x (drop_sorted_group_subset entries h2 x hx2)
    exact hne (e1 ▸ e2 ▸ rfl)

/-- C3: after `deduplicate`, every non-empty image hash shared by more than
one entry is held by exactly one remaining entry — one of the original group
members with the greatest `lastAccessedAt` among them; entries with empty
`imageHash` are never deduplicated; the return value is the number of entries
removed. -/
theorem C3_deduplicate_correct (st : CacheState)
    (hnodup : (st.entries.map (fun e => e.key)).Nodup) :
    (∀ h : String, h ≠ "" → 1 < (AdvancedCache.hashGroup st.entries h).length →
      ∃ e, AdvancedCache.hashGroup (AdvancedCache.deduplicate st).1.entries h = [e] ∧
        e ∈ AdvancedCache.hashGroup st.entries h ∧
        ∀ e' ∈ AdvancedCache.hashGroup st.entries h,
          e'.last_accessed ≤ e.last_accessed) ∧
    (∀ e ∈ st.entries, e.image_hash = "" →
      e ∈ (AdvancedCache.deduplicate st).1.entries) ∧
    (AdvancedCache.deduplicate st).2 =
      st.entries.length - (AdvancedCache.deduplicate st).1.entries.length := by
  have hentries : st.entries.Nodup := List.Nodup.of_map _ hnodup
  have hafter : (AdvancedCache.deduplicate st).1.entries =
      st.entries.filter (fun e =>
        !(((AdvancedCache.dedupRemoved st.entries).map (fun e => e.key)).contains
          e.key)) := rfl
  have hcount : (AdvancedCache.deduplicate st).2 =
      ((AdvancedCache.dedupRemoved st.entries).map (fun e => e.key)).length := rfl
  have hckey := fun {x} (hx : x ∈ st.entries) =>
    contains_key_iff (l := AdvancedCache.dedupRemoved st.entries) hnodup
      (dedupRemoved_subset st.entries) hx
  refine ⟨?_, ?_, ?_⟩
  · -- exactly one survivor per duplicated hash
    intro h hne hlen
    have hgs := List.perm_insertionSort AdvancedCache.moreRecent
      (AdvancedCache.hashGroup st.entries h)
    have hg_nodup : (AdvancedCache.hashGroup st.entries h).Nodup :=
      (List.filter_sublist st.entries).nodup hentries
    have hs_nodup : (List.insertionSort AdvancedCache.moreRecent
        (AdvancedCache.hashGroup st.entries h)).Nodup := hgs.symm.nodup hg_nodup
    have hsort : List.Sorted AdvancedCache.moreRecent
        (List.insertionSort AdvancedCache.moreRecent
          (AdvancedCache.hashGroup st.entries h)) :=
      List.sorted_insertionSort AdvancedCache.moreRecent _
    have hh_dH : h ∈ AdvancedCache.duplicateHashes st.entries := by
      rcases List.exists_mem_of_ne_nil (AdvancedCache.hashGroup st.entries h)
        (by intro hnil; rw [hnil] at hlen; simp at hlen) with ⟨x, hxg⟩
      exact (mem_duplicateHashes st.entries h).mpr
        ⟨List.mem_map.mpr ⟨x, hashGroup_subset st.entries h x hxg,
          hashGroup_hash st.entries h x hxg⟩, hne, hlen⟩
    cases hsorted_eq : List.insertionSort AdvancedCache.moreRecent
        (AdvancedCache.hashGroup st.entries h) with
    | nil =>
      exfalso
      have := hgs.length_eq
      rw [hsorted_eq] at this
      simp at this
      omega
    | cons s0 tail =>
      have hs0_tail : s0 ∉ tail := by
        rw [hsorted_eq] at hs_nodup
        exact (List.nodup_cons.mp hs_nodup).1
      refine ⟨s0, ?_, ?_, ?_⟩
      · -- the after-group is exactly [s0]
        have hga : AdvancedCache.hashGroup (AdvancedCache.deduplicate st).1.entries h =
            (AdvancedCache.hashGroup st.entries h).filter (fun e =>
              !(((AdvancedCache.dedupRemoved st.entries).map (fun e => e.key)).contains
                e.key)) := by
          rw [hafter]
          unfold AdvancedCache.hashGroup
          exact filter_swap _ _ st.entries
        rw [hga]
        have hcongr : (AdvancedCache.hashGroup st.entries h).filter (fun e =>
            !(((AdvancedCache.dedupRemoved st.entries).map (fun e => e.key)).contains
              e.key)) =
            (AdvancedCache.hashGroup st.entries h).filter (fun e =>
              !(tail.contains e)) := by
          apply List.filter_congr
          intro x hxg
          have hx_entries := hashGroup_subset st.entries h x hxg
          have hiff1 := hckey hx_entries
          have hiff2 : x ∈ AdvancedCache.dedupRemoved st.entries ↔ x ∈ tail := by
            constructor
            · intro hxr
              have hd := mem_dedupRemoved_group hxr hxg
              rw [hsorted_eq] at hd
              simpa using hd
            · intro hxt
              refine (mem_dedupRemoved st.entries x).mpr ⟨h, hh_dH, ?_⟩
              rw [hsorted_eq]
              simpa using hxt
          have hiff3 : tail.contains x = true ↔ x ∈ tail := by
            simp [List.contains_eq_any_beq, List.any_eq_true]
          have heq : ((AdvancedCache.dedupRemoved st.entries).map
              (fun e => e.key)).contains x.key = tail.contains x := by
            by_cases hb : ((AdvancedCache.dedupRemoved st.entries).map
                (fun e => e.key)).contains x.key = true
            · have h2 := hiff3.mpr (hiff2.mp (hiff1.mp hb))
              rw [hb, h2]
            · have hb' : ¬ tail.contains x = true := fun hc =>
                hb (hiff1.mpr (hiff2.mpr (hiff3.mp hc)))
              rw [Bool.not_eq_true] at hb hb'
              rw [hb, hb']
          rw [heq]
        rw [hcongr]
        have hperm_f : ((AdvancedCache.hashGroup st.entries h).filter (fun e =>
            !(tail.contains e))).Perm
            ((List.insertionSort AdvancedCache.moreRecent
              (AdvancedCache.hashGroup st.entries h)).filter (fun e =>
                !(tail.contains e))) :=
          (hgs.symm).filter _
        rw [hsorted_eq] at hperm_f
        have hfcons : (s0 :: tail).filter (fun e => !(tail.contains e)) = [s0] := by
          rw [List.filter_cons_of_pos]
          · have hnil : tail.filter (fun e => !(tail.contains e)) = [] := by
              rw [List.filter_eq_nil_iff]
              intro x hx
              have hctrue : tail.contains x = true := List.elem_eq_true_of_mem hx
              simp [hctrue]
              exact hx
            rw [hnil]
          · simp only [Bool.not_eq_true']
            rw [← Bool.not_eq_true]
            exact fun hc => hs0_tail (List.mem_of_elem_eq_true hc)
        rw [hfcons] at hperm_f
        exact List.perm_singleton.mp hperm_f
      · -- the survivor is one of the originals
        have : s0 ∈ List.insertionSort AdvancedCache.moreRecent
            (AdvancedCache.hashGroup st.entries h) := by
          rw [hsorted_eq]
          exact List.mem_cons_self _ _
        exact hgs.mem_iff.mp this
      · -- the survivor has maximal last_accessed in the group
        intro e' he'
        have he'_sorted : e' ∈ List.insertionSort AdvancedCache.moreRecent
            (AdvancedCache.hashGroup st.entries h) := hgs.mem_iff.mpr he'
        rw [hsorted_eq] at he'_sorted hsort
        rcases List.mem_cons.mp he'_sorted with rfl | htail
        · exact le_refl _
        · exact (List.sorted_cons.mp hsort).1 e' htail
  · -- empty-hash entries are never deduplicated
    intro e he hh
    rw [hafter]
    refine List.mem_filter.mpr ⟨he, ?_⟩
    have hnotR : ¬ e ∈ AdvancedCache.dedupRemoved st.entries := fun hr =>
      (dedupRemoved_hash_ne st.entries e hr) hh
    simp only [Bool.not_eq_true']
    rw [← Bool.not_eq_true]
    exact fun hc => hnotR ((hckey he).mp hc)
  · -- the return value counts the removed entries
    rw [hcount, hafter]
    rw [List.length_map]
    have hperm2 : (st.entries.filter (fun e =>
        ((AdvancedCache.dedupRemoved st.entries).map (fun e => e.key)).contains
          e.key)).Perm (AdvancedCache.dedupRemoved st.entries) := by
      rw [List.perm_ext_iff_of_nodup
        ((List.filter_sublist st.entries).nodup hentries)
        (dedupRemoved_nodup st.entries hnodup)]
      intro a
      constructor
      · intro ha
        have hmem := List.mem_filter.mp ha
        exact (hckey hmem.1).mp hmem.2
      · intro ha
        exact List.mem_filter.mpr ⟨dedupRemoved_subset st.entries a ha,
          (hckey (dedupRemoved_subset st.entries a ha)).mpr ha⟩
    have hlens := (List.filter_append_perm (fun e =>
      ((AdvancedCache.dedupRemoved st.entries).map (fun e => e.key)).contains
        e.key) st.entries).length_eq
    rw [List.length_append] at hlens
    have hR := hperm2.length_eq
    omega

/-- A concrete store for the deduplication witness: two entries sharing image
hash `"h1"` plus one degraded (empty-hash) entry. -/
def dedupDemoState : CacheState :=
  { entries :=
      [{ key := "k1", file_path := "p1", size := 5, created_time := 0,
         last_accessed := 10, access_count := 0, backend := "w",
         image_hash := "h1", compressed := false },
       { key := "k2", file_path := "p2", size := 5, created_time := 0,
         last_accessed := 20, access_count := 0, backend := "w",
         image_hash := "h1", compressed := false },
       { key := "k3", file_path := "p3", size := 5, created_time := 0,
         last_accessed := 30, access_count := 0, backend := "w",
         image_hash := "", compressed := false }],
    stats := CacheStats.init }

/-- Witness for `C3_deduplicate_correct` on `dedupDemoState`. -/
theorem C3_deduplicate_correct_witness :
    (dedupDemoState.entries.map (fun e => e.key)).Nodup ∧
    ((∀ h : String, h ≠ "" →
        1 < (AdvancedCache.hashGroup dedupDemoState.entries h).length →
        ∃ e, AdvancedCache.hashGroup
            (AdvancedCache.deduplicate dedupDemoState).1.entries h = [e] ∧
          e ∈ AdvancedCache.hashGroup dedupDemoState.entries h ∧
          ∀ e' ∈ AdvancedCache.hashGroup dedupDemoState.entries h,
            e'.last_accessed ≤ e.last_accessed) ∧
      (∀ e ∈ dedupDemoState.entries, e.image_hash = "" →
        e ∈ (AdvancedCache.deduplicate dedupDemoState).1.entries) ∧
      (AdvancedCache.deduplicate dedupDemoState).2 =
        dedupDemoState.entries.length -
          (AdvancedCache.deduplicate dedupDemoState).1.entries.length) :=
  ⟨by decide, C3_deduplicate_correct dedupDemoState (by decide)⟩

/-! ## Claim C6: access-count lifecycle over operation sequences -/

/-- Holds when `op` is a `put` to the key `k`. -/
def putsKey (k : String) : CacheOp → Prop
  | .opPut k' _ _ _ _ _ _ => k' = k
  | _ => False

theorem find?_key_eq {entries : List CacheEntry} {k : String} {e : CacheEntry}
    (h : entries.find? (fun x => x.key == k) = some e) : e.key = k := by
  have h2 := List.find?_some h
  simpa using h2

theorem find?_mem {entries : List CacheEntry} {k : String} {e : CacheEntry}
    (h : entries.find? (fun x => x.key == k) = some e) : e ∈ entries :=
  List.mem_of_find?_eq_some h

/-- With globally distinct keys, any `find?`-by-key hit in a member-wise
subcollection is the same entry. -/
theorem find?_subset_eq {entries l' : List CacheEntry} {k : String}
    {e e' : CacheEntry} (hnodup : (entries.map (fun x => x.key)).Nodup)
    (hsub : ∀ x ∈ l', x ∈ entries)
    (he : entries.find? (fun x => x.key == k) = some e)
    (he' : l'.find? (fun x => x.key == k) = some e') : e' = e :=
  nodup_key_eq hnodup (hsub e' (find?_mem he')) (find?_mem he)
    (by rw [find?_key_eq he', find?_key_eq he])

theorem find?_map_key_preserving (f : CacheEntry → CacheEntry)
    (hf : ∀ x, (f x).key = x.key) (l : List CacheEntry) (k : String) :
    (l.map f).find? (fun x => x.key == k) =
      (l.find? (fun x => x.key == k)).map f := by
  induction l with
  | nil => rfl
  | cons a rest ih =>
    by_cases hk : (a.key == k) = true
    · rw [List.map_cons, List.find?_cons_of_pos, List.find?_cons_of_pos]
      · rfl
      · exact hk
      · rw [hf a]; exact hk
    · rw [List.map_cons, List.find?_cons_of_neg, List.find?_cons_of_neg, ih]
      · exact hk
      · rw [hf a]; exact hk

theorem cleanup_entries_id_or_filter (st : CacheState)
    (now mb days keep : Int) :
    (AdvancedCache.cleanup st now mb days keep).1.entries = st.entries ∨
      ∃ p : CacheEntry → Bool,
        (AdvancedCache.cleanup st now mb days keep).1.entries =
          st.entries.filter p := by
  by_cases hc : (totalSize st.entries : Int) ≤ mb * 1024 * 1024 ∧
      st.entries.length < 1000
  · left; simp [AdvancedCache.cleanup, hc]
  · right
    refine ⟨fun e => !((((AdvancedCache.cleanupWalk now (days * 24 * 3600)
      (totalSize st.entries) (mb * 1024 * 1024)
      (AdvancedCache.cleanupCandidates st.entries keep) 0).1).map
        (fun e => e.key)).contains e.key), ?_⟩
    simp [AdvancedCache.cleanup, hc]

theorem dedup_entries_filter (st : CacheState) :
    ∃ p : CacheEntry → Bool,
      (AdvancedCache.deduplicate st).1.entries = st.entries.filter p :=
  ⟨_, rfl⟩

/-- Every entry present after a step either shares its key with a prior
entry, or was inserted by a `put` of exactly that key. -/
theorem step_keys (fs : String → FileState) (st : CacheState) (op : CacheOp) :
    ∀ x ∈ (step fs st op).entries,
      (∃ y ∈ st.entries, y.key = x.key) ∨ putsKey x.key op := by
  intro x hx
  cases op with
  | opGet k' now db =>
    unfold step AdvancedCache.get at hx
    by_cases hdb : db = DbOutcome.unreachable
    · simp only [if_pos hdb, AdvancedCache.bumpMiss] at hx
      exact Or.inl ⟨x, hx, rfl⟩
    · simp only [if_neg hdb] at hx
      cases hf0 : st.entries.find? (fun e => e.key == k') with
      | none =>
        rw [hf0] at hx
        simp only [AdvancedCache.bumpMiss] at hx
        exact Or.inl ⟨x, hx, rfl⟩
      | some f0 =>
        rw [hf0] at hx
        cases hfs : fs f0.file_path with
        | absent =>
          simp only [hfs, AdvancedCache.bumpMiss, AdvancedCache.removeEntry] at hx
          exact Or.inl ⟨x, (List.mem_filter.mp hx).1, rfl⟩
        | corrupt =>
          simp only [hfs, AdvancedCache.bumpMiss, AdvancedCache.removeEntry] at hx
          exact Or.inl ⟨x, (List.mem_filter.mp hx).1, rfl⟩
        | good d =>
          by_cases hup : db = DbOutcome.updateFails
          · simp [hfs, hup, AdvancedCache.bumpMiss] at hx
            exact Or.inl ⟨x, hx, rfl⟩
          · by_cases hcf : db = DbOutcome.commitFails
            · simp [hfs, hup, hcf, AdvancedCache.bumpMiss] at hx
              exact Or.inl ⟨x, hx, rfl⟩
            · simp [hfs, hup, hcf] at hx
              rcases hx with ⟨y, hy, rfl⟩
              refine Or.inl ⟨y, hy, ?_⟩
              by_cases hyk : y.key = k' <;> simp [hyk]
  | opPut k' size now b ih cmp ok =>
    unfold step AdvancedCache.put at hx
    cases ok with
    | false => exact Or.inl ⟨x, hx, rfl⟩
    | true =>
      simp only [Bool.not_true, Bool.false_eq_true, if_false] at hx
      rcases List.mem_append.mp hx with hx1 | hx2
      · exact Or.inl ⟨x, (List.mem_filter.mp hx1).1, rfl⟩
      · rcases List.mem_singleton.mp hx2 with rfl
        exact Or.inr rfl
  | opCleanup now mb days keep =>
    rcases cleanup_entries_id_or_filter st now mb days keep with hcl | ⟨p, hcl⟩
    · unfold step at hx
      rw [hcl] at hx
      exact Or.inl ⟨x, hx, rfl⟩
    · unfold step at hx
      rw [hcl] at hx
      exact Or.inl ⟨x, (List.mem_filter.mp hx).1, rfl⟩
  | opDedup =>
    rcases dedup_entries_filter st with ⟨p, hd⟩
    unfold step at hx
    rw [hd] at hx
    exact Or.inl ⟨x, (List.mem_filter.mp hx).1, rfl⟩
  | opRemove k' =>
    unfold step AdvancedCache.removeEntry at hx
    exact Or.inl ⟨x, (List.mem_filter.mp hx).1, rfl⟩
  | opClear =>
    unfold step AdvancedCache.clear_all at hx
    simp at hx

/-- A step never introduces duplicate keys. -/
theorem step_preserves_nodup (fs : String → FileState) (st : CacheState)
    (op : CacheOp) (hnodup : (st.entries.map (fun e => e.key)).Nodup) :
    ((step fs st op).entries.map (fun e => e.key)).Nodup := by
  cases op with
  | opGet k' now db =>
    unfold step AdvancedCache.get
    by_cases hdb : db = DbOutcome.unreachable
    · simpa [hdb, AdvancedCache.bumpMiss] using hnodup
    · simp only [if_neg hdb]
      cases hf0 : st.entries.find? (fun e => e.key == k') with
      | none => simpa [AdvancedCache.bumpMiss] using hnodup
      | some f0 =>
        cases hfs : fs f0.file_path with
        | absent =>
          simp only [hfs, AdvancedCache.bumpMiss, AdvancedCache.removeEntry]
          exact ((List.filter_sublist st.entries).map _).nodup hnodup
        | corrupt =>
          simp only [hfs, AdvancedCache.bumpMiss, AdvancedCache.removeEntry]
          exact ((List.filter_sublist st.entries).map _).nodup hnodup
        | good d =>
          by_cases hup : db = DbOutcome.updateFails
          · simpa [hfs, hup, AdvancedCache.bumpMiss] using hnodup
          · by_cases hcf : db = DbOutcome.commitFails
            · simpa [hfs, hup, hcf, AdvancedCache.bumpMiss] using hnodup
            · simp only [hfs, if_neg hup, if_neg hcf]
              rw [List.map_map]
              have hcongr : st.entries.map ((fun e => e.key) ∘ (fun x =>
                  if (x.key == k') = true then
                    { x with last_accessed := now,
                             access_count := f0.access_count + 1 }
                  else x)) = st.entries.map (fun e => e.key) := by
                apply List.map_congr_left
                intro a _
                by_cases hak : a.key = k' <;> simp [hak]
              rw [hcongr]
              exact hnodup
  | opPut k' size now b ih cmp ok =>
    unfold step AdvancedCache.put
    cases ok with
    | false => simpa using hnodup
    | true =>
      simp only [Bool.not_true, Bool.false_eq_true, if_false]
      rw [List.map_append]
      apply List.Nodup.append
      · exact ((List.filter_sublist st.entries).map _).nodup hnodup
      · exact List.nodup_singleton _
      · intro a ha hb
        rcases List.mem_singleton.mp hb with rfl
        rcases List.mem_map.mp ha with ⟨y, hy, hyk⟩
        have h2 := (List.mem_filter.mp hy).2
        rw [hyk] at h2
        simp at h2
  | opCleanup now mb days keep =>
    rcases cleanup_entries_id_or_filter st now mb days keep with hcl | ⟨p, hcl⟩
    · unfold step
      rw [hcl]
      exact hnodup
    · unfold step
      rw [hcl]
      exact ((List.filter_sublist st.entries).map _).nodup hnodup
  | opDedup =>
    rcases dedup_entries_filter st with ⟨p, hd⟩
    unfold step
    rw [hd]
    exact ((List.filter_sublist st.entries).map _).nodup hnodup
  | opRemove k' =>
    unfold step AdvancedCache.removeEntry
    exact ((List.filter_sublist st.entries).map _).nodup hnodup
  | opClear =>
    unfold step AdvancedCache.clear_all
    simp

/-- An absent key stays absent under any operation that is not a `put` of
that key. -/
theorem step_no_create (fs : String → FileState) (st : CacheState)
    (op : CacheOp) (k : String) (hnot : ¬ putsKey k op)
    (h : st.entries.find? (fun x => x.key == k) = none) :
    (step fs st op).entries.find? (fun x => x.key == k) = none := by
  rw [List.find?_eq_none] at h ⊢
  intro x hx
  rcases step_keys fs st op x hx with ⟨y, hy, hyk⟩ | hput
  · intro hxk
    exact h y hy (by rw [hyk]; exact hxk)
  · intro hxk
    have hxkey : x.key = k := by simpa using hxk
    rw [hxkey] at hput
    exact hnot hput

/-- A single non-`put` step never decreases the access count of the entry at
a key (a `get` hit increments it; every other operation either keeps the
entry untouched or deletes it). -/
theorem step_access_count_mono (fs : String → FileState) (st : CacheState)
    (op : CacheOp) (k : String) (hnotput : ¬ putsKey k op)
    (hnodup : (st.entries.map (fun e => e.key)).Nodup) {e e' : CacheEntry}
    (he : st.entries.find? (fun x => x.key == k) = some e)
    (he' : (step fs st op).entries.find? (fun x => x.key == k) = some e') :
    e.access_count ≤ e'.access_count := by
  cases op with
  | opGet k' now db =>
    unfold step AdvancedCache.get at he'
    by_cases hdb : db = DbOutcome.unreachable
    · simp only [if_pos hdb, AdvancedCache.bumpMiss] at he'
      rw [he] at he'
      exact Nat.le_of_eq (congrArg CacheEntry.access_count (Option.some.inj he'))
    · simp only [if_neg hdb] at he'
      cases hf0 : st.entries.find? (fun x => x.key == k') with
      | none =>
        rw [hf0] at he'
        simp only [AdvancedCache.bumpMiss] at he'
        rw [he] at he'
        exact Nat.le_of_eq (congrArg CacheEntry.access_count (Option.some.inj he'))
      | some f0 =>
        rw [hf0] at he'
        cases hfs : fs f0.file_path with
        | absent =>
          simp only [hfs, AdvancedCache.bumpMiss, AdvancedCache.removeEntry] at he'
          exact Nat.le_of_eq (congrArg CacheEntry.access_count
            (find?_subset_eq hnodup (fun x hx => (List.mem_filter.mp hx).1)
              he he').symm)
        | corrupt =>
          simp only [hfs, AdvancedCache.bumpMiss, AdvancedCache.removeEntry] at he'
          exact Nat.le_of_eq (congrArg CacheEntry.access_count
            (find?_subset_eq hnodup (fun x hx => (List.mem_filter.mp hx).1)
              he he').symm)
        | good d =>
          by_cases hup : db = DbOutcome.updateFails
          · simp only [hfs, if_pos hup, AdvancedCache.bumpMiss] at he'
            rw [he] at he'
            exact Nat.le_of_eq (congrArg CacheEntry.access_count
              (Option.some.inj he'))
          · by_cases hcf : db = DbOutcome.commitFails
            · simp only [hfs, if_neg hup, if_pos hcf,
                AdvancedCache.bumpMiss] at he'
              rw [he] at he'
              exact Nat.le_of_eq (congrArg CacheEntry.access_count
                (Option.some.inj he'))
            · simp only [hfs, if_neg hup, if_neg hcf] at he'
              rw [find?_map_key_preserving _ (fun x => by
                by_cases hxk : (x.key == k') = true <;> simp [hxk]) _ _] at he'
              rw [he] at he'
              have he'e : e' = if (e.key == k') = true then
                  { e with last_accessed := now,
                           access_count := f0.access_count + 1 }
                else e := (Option.some.inj he').symm
              by_cases hkk : (e.key == k') = true
              · have hk'k : k' = k := by
                  have hek := find?_key_eq he
                  simp only [beq_iff_eq] at hkk
                  rw [← hkk, hek]
                subst hk'k
                rw [hf0] at he
                have hf0e : f0 = e := Option.some.inj he
                subst hf0e
                rw [he'e, if_pos hkk]
                simp
              · rw [he'e, if_neg hkk]
  | opPut k' size now b ih cmp ok =>
    have hk'k : ¬ k' = k := hnotput
    unfold step AdvancedCache.put at he'
    cases ok with
    | false =>
      simp only [Bool.not_false, if_true] at he'
      rw [he] at he'
      exact Nat.le_of_eq (congrArg CacheEntry.access_count (Option.some.inj he'))
    | true =>
      simp only [Bool.not_true, Bool.false_eq_true, if_false] at he'
      have hmem := find?_mem he'
      have hkey' := find?_key_eq he'
      rcases List.mem_append.mp hmem with hx1 | hx2
      · exact Nat.le_of_eq (congrArg CacheEntry.access_count
          (nodup_key_eq hnodup (find?_mem he) (List.mem_filter.mp hx1).1
            (by rw [find?_key_eq he, hkey'])))
      · exfalso
        rcases List.mem_singleton.mp hx2 with rfl
        exact hk'k hkey'
  | opCleanup now mb days keep =>
    rcases cleanup_entries_id_or_filter st now mb days keep with hcl | ⟨p, hcl⟩
    · unfold step at he'
      rw [hcl, he] at he'
      exact Nat.le_of_eq (congrArg CacheEntry.access_count (Option.some.inj he'))
    · unfold step at he'
      rw [hcl] at he'
      exact Nat.le_of_eq (congrArg CacheEntry.access_count
        (find?_subset_eq hnodup (fun x hx => (List.mem_filter.mp hx).1)
          he he').symm)
  | opDedup =>
    rcases dedup_entries_filter st with ⟨p, hd⟩
    unfold step at he'
    rw [hd] at he'
    exact Nat.le_of_eq (congrArg CacheEntry.access_count
      (find?_subset_eq hnodup (fun x hx => (List.mem_filter.mp hx).1) he he').symm)
  | opRemove k' =>
    unfold step AdvancedCache.removeEntry at he'
    exact Nat.le_of_eq (congrArg CacheEntry.access_count
      (find?_subset_eq hnodup (fun x hx => (List.mem_filter.mp hx).1) he he').symm)
  | opClear =>
    unfold step AdvancedCache.clear_all at he'
    simp at he'

theorem steps_nil (fs : String → FileState) (st : CacheState) :
    steps fs st [] = st := rfl

theorem steps_cons (fs : String → FileState) (st : CacheState) (op : CacheOp)
    (rest : List CacheOp) :
    steps fs st (op :: rest) = steps fs (step fs st op) rest := rfl

theorem steps_no_create (fs : String → FileState) :
    ∀ (ops : List CacheOp) (st : CacheState) (k : String),
      (∀ op ∈ ops, ¬ putsKey k op) →
      st.entries.find? (fun x => x.key == k) = none →
      (steps fs st ops).entries.find? (fun x => x.key == k) = none := by
  intro ops
  induction ops with
  | nil => intro st k _ h; exact h
  | cons op rest ih =>
    intro st k hnoput h
    rw [steps_cons]
    exact ih (step fs st op) k (fun o ho => hnoput o (List.mem_cons_of_mem _ ho))
      (step_no_create fs st op k (hnoput op (List.mem_cons_self _ _)) h)

/-- C6 amended: on a cache with distinct keys, `accessCount` at a key is
monotonically non-decreasing across every sequence of operations that
contains no `put` to that key — `get` hits increment it, and cleanup,
deduplication, remove and clear only ever delete entries.  (A `put` to the
key replaces the whole entry via `INSERT OR REPLACE` with `access_count = 0`
and a fresh `last_accessed`, which may decrease the count — see the
counterexample.) -/
theorem C6_access_count_monotone (fs : String → FileState) :
    ∀ (ops : List CacheOp) (st : CacheState) (k : String),
      (st.entries.map (fun e => e.key)).Nodup →
      (∀ op ∈ ops, ¬ putsKey k op) →
      ∀ {e e' : CacheEntry},
        st.entries.find? (fun x => x.key == k) = some e →
        (steps fs st ops).entries.find? (fun x => x.key == k) = some e' →
        e.access_count ≤ e'.access_count := by
  intro ops
  induction ops with
  | nil =>
    intro st k _ _ e e' he he'
    rw [steps_nil] at he'
    rw [he] at he'
    exact Nat.le_of_eq (congrArg CacheEntry.access_count (Option.some.inj he'))
  | cons op rest ih =>
    intro st k hnodup hnoput e e' he he'
    rw [steps_cons] at he'
    cases hmid : (step fs st op).entries.find? (fun x => x.key == k) with
    | none =>
      exfalso
      have habs := steps_no_create fs rest (step fs st op) k
        (fun o ho => hnoput o (List.mem_cons_of_mem _ ho)) hmid
      rw [habs] at he'
      cases he'
    | some em =>
      exact le_trans
        (step_access_count_mono fs st op k (hnoput op (List.mem_cons_self _ _))
          hnodup he hmid)
        (ih (step fs st op) k (step_preserves_nodup fs st op hnodup)
          (fun o ho => hnoput o (List.mem_cons_of_mem _ ho)) hmid he')

/-- A file-system environment in which every backing file is present and
loads the document `"doc"`. -/
def c6Fs : String → FileState := fun _ => FileState.good "doc"

/-- C6 counterexample: `put k`, then a `get` hit (count 0 → 1), then `put k`
again — `INSERT OR REPLACE` re-registers the row with `access_count = 0`, so
the count at key `k` decreases from 1 to 0 with no `clear` in the sequence;
`put` (not only `get`) mutates `lastAccessedAt`/`accessCount` at a live key. -/
theorem C6_cex_put_resets_access_count :
    ((steps c6Fs ⟨[], CacheStats.init⟩
        [CacheOp.opPut "k" 5 0 "w" "ih" true true,
         CacheOp.opGet "k" 1 DbOutcome.ok]).entries.find?
      (fun x => x.key == "k")).map (fun e => e.access_count) = some 1 ∧
    ((steps c6Fs ⟨[], CacheStats.init⟩
        [CacheOp.opPut "k" 5 0 "w" "ih" true true,
         CacheOp.opGet "k" 1 DbOutcome.ok,
         CacheOp.opPut "k" 5 2 "w" "ih" true true]).entries.find?
      (fun x => x.key == "k")).map (fun e => e.access_count) = some 0 := by
  decide

/-- A one-entry store for the monotonicity witness. -/
def c6DemoState : CacheState :=
  { entries := [{ key := "k", file_path := "schemes/k.json.gz", size := 5,
                  created_time := 0, last_accessed := 0, access_count := 3,
                  backend := "w", image_hash := "h", compressed := true }],
    stats := CacheStats.init }

/-- Witness for `C6_access_count_monotone`: one `get` hit raises the count
from 3 to 4. -/
theorem C6_access_count_monotone_witness :
    (c6DemoState.entries.map (fun e => e.key)).Nodup ∧
    (∀ op ∈ [CacheOp.opGet "k" 1 DbOutcome.ok], ¬ putsKey "k" op) ∧
    c6DemoState.entries.find? (fun x => x.key == "k") =
      some { key := "k", file_path := "schemes/k.json.gz", size := 5,
             created_time := 0, last_accessed := 0, access_count := 3,
             backend := "w", image_hash := "h", compressed := true } ∧
    (steps c6Fs c6DemoState [CacheOp.opGet "k" 1 DbOutcome.ok]).entries.find?
      (fun x => x.key == "k") =
      some { key := "k", file_path := "schemes/k.json.gz", size := 5,
             created_time := 0, last_accessed := 1, access_count := 4,
             backend := "w", image_hash := "h", compressed := true } ∧
    (3 : Nat) ≤ 4 := by
  refine ⟨by decide, ?_, by decide, by decide, ?_⟩
  · intro op hop
    rcases List.mem_singleton.mp hop with rfl
    exact fun h => h
  · exact @C6_access_count_monotone c6Fs [CacheOp.opGet "k" 1 DbOutcome.ok] c6DemoState
      "k" (by decide)
      (by intro op hop
          rcases List.mem_singleton.mp hop with rfl
          exact fun h => h)
      { key := "k", file_path := "schemes/k.json.gz", size := 5,
        created_time := 0, last_accessed := 0, access_count := 3,
        backend := "w", image_hash := "h", compressed := true }
      { key := "k", file_path := "schemes/k.json.gz", size := 5,
        created_time := 0, last_accessed := 1, access_count := 4,
        backend := "w", image_hash := "h", compressed := true }
      (by decide)
      (by decide)

/-! ## Parallel batch processor (parallel.py, `ParallelColorProcessor`) -/

/-- Modelled from the spec: the outcome of trying one backend on one image
inside `_process_single_image` (parallel.py:97-119).  The `colors` module is
the external backend collaborator (spec §6, not among the source files):
either the per-(image, backend) cache file exists and loads
(parallel.py:107-109), or `colors.get` computes a fresh scheme
(parallel.py:113-115), or something in the body raises and the loop falls
through to the next backend (parallel.py:117-119). -/
inductive BackendOutcome (α : Type) where
  | cacheHit (a : α)
  | computed (a : α)
  | failed
deriving DecidableEq

/-- Embeds `ParallelColorProcessor._process_single_image` (parallel.py:93-121): try
the backends in order and return the first non-failing outcome; if every
backend fails, return `None` — never raise. -/
def process_single_image {α : Type} (outcome : String → BackendOutcome α) :
    List String → Option α
  | [] => none
  | b :: rest =>
    match outcome b with
    | .cacheHit a => some a
    | .computed a => some a
    | .failed => process_single_image outcome rest

/-- Embeds `ParallelColorProcessor.process_image_batch` (parallel.py:40-91): one
result per image whose task returned a truthy value (`if result:`,
parallel.py:81); a task exception or an all-backends failure contributes
nothing and does not fail the batch (parallel.py:85-88).  The worker pool
affects only completion order, which the result dictionary does not expose;
the model collects results in image order. -/
def process_image_batch {α : Type} (truthy : α → Bool)
    (outcome : String → String → BackendOutcome α)
    (images backends : List String) : List (String × α) :=
  images.filterMap (fun img =>
    match process_single_image (outcome img) backends with
    | some a => if truthy a then some (img, a) else none
    | none => none)

/-- Modelled from the spec: "every returned artifact corresponds to the
first backend (in the given order) that succeeded for that image" (§8) —
the refinement target `process_single_image` is compared against. -/
def firstSucceedingBackend {α : Type} (outcome : String → BackendOutcome α)
    (backends : List String) : Option α :=
  match backends.find? (fun b =>
      match outcome b with
      | .failed => false
      | _ => true) with
  | some b =>
    match outcome b with
    | .cacheHit a => some a
    | .computed a => some a
    | .failed => none
  | none => none

theorem process_single_image_eq_first {α : Type}
    (outcome : String → BackendOutcome α) :
    ∀ backends : List String,
      process_single_image outcome backends =
        firstSucceedingBackend outcome backends := by
  intro backends
  induction backends with
  | nil => rfl
  | cons b rest ih =>
    unfold process_single_image firstSucceedingBackend
    cases hb : outcome b with
    | cacheHit a =>
      rw [List.find?_cons_of_pos]
      · simp only [hb]
      · rw [hb]
    | computed a =>
      rw [List.find?_cons_of_pos]
      · simp only [hb]
      · rw [hb]
    | failed =>
      rw [List.find?_cons_of_neg]
      · rw [ih]
        rfl
      · rw [hb]
        simp

theorem process_single_image_all_failed {α : Type}
    (outcome : String → BackendOutcome α) :
    ∀ backends : List String,
      (∀ b ∈ backends, outcome b = BackendOutcome.failed) →
      process_single_image outcome backends = none := by
  intro backends
  induction backends with
  | nil => intro _; rfl
  | cons b rest ih =>
    intro hall
    unfold process_single_image
    rw [hall b (List.mem_cons_self _ _)]
    exact ih (fun x hx => hall x (List.mem_cons_of_mem _ hx))

/-- C5: a batch over N images returns at most N results; every result is the
artifact of the first backend, in the given order, that succeeded (by cache
hit or fresh computation) for that image; an image for which every backend
fails is absent from the result and does not fail the batch (the batch
function is total). -/
theorem C5_batch_completeness {α : Type} (truthy : α → Bool)
    (outcome : String → String → BackendOutcome α)
    (images backends : List String) :
    (process_image_batch truthy outcome images backends).length ≤ images.length ∧
    (∀ img a, (img, a) ∈ process_image_batch truthy outcome images backends →
      firstSucceedingBackend (outcome img) backends = some a) ∧
    (∀ img ∈ images, (∀ b ∈ backends, outcome img b = BackendOutcome.failed) →
      ∀ a, (img, a) ∉ process_image_batch truthy outcome images backends) := by
  refine ⟨List.length_filterMap_le _ _, ?_, ?_⟩
  · intro img a hmem
    rcases List.mem_filterMap.mp hmem with ⟨i, _, hf⟩
    cases hpsi : process_single_image (outcome i) backends with
    | none =>
      rw [hpsi] at hf
      simp at hf
    | some a' =>
      rw [hpsi] at hf
      by_cases ht : truthy a' = true
      · simp only [ht, if_true, Option.some.injEq, Prod.mk.injEq] at hf
        rw [← process_single_image_eq_first, ← hf.1, hpsi, hf.2]
      · simp only [if_neg ht] at hf
        cases hf
  · intro img _ hall a hmem
    rcases List.mem_filterMap.mp hmem with ⟨i, _, hf⟩
    cases hpsi : process_single_image (outcome i) backends with
    | none =>
      rw [hpsi] at hf
      simp at hf
    | some a' =>
      rw [hpsi] at hf
      by_cases ht : truthy a' = true
      · simp only [ht, if_true, Option.some.injEq, Prod.mk.injEq] at hf
        rw [hf.1] at hpsi
        rw [process_single_image_all_failed (outcome img) backends hall] at hpsi
        cases hpsi
      · simp only [if_neg ht] at hf
        cases hf

/-- A concrete backend environment for the batch witness: only backend `b2`
succeeds, and only on image `i1`. -/
def c5Outcome : String → String → BackendOutcome Nat := fun img b =>
  if img = "i1" ∧ b = "b2" then BackendOutcome.computed 7 else BackendOutcome.failed

/-- Witness for `C5_batch_completeness`: two images, two backends; `i1` gets
backend `b2`'s artifact, `i2` (all backends fail) is absent. -/
theorem C5_batch_completeness_witness :
    ("i1", 7) ∈ process_image_batch (fun _ => true) c5Outcome ["i1", "i2"]
      ["b1", "b2"] ∧
    "i2" ∈ (["i1", "i2"] : List String) ∧
    (∀ b ∈ (["b1", "b2"] : List String), c5Outcome "i2" b = BackendOutcome.failed) ∧
    firstSucceedingBackend (c5Outcome "i1") ["b1", "b2"] = some 7 ∧
    (∀ a, ("i2", a) ∉ process_image_batch (fun _ => true) c5Outcome ["i1", "i2"]
      ["b1", "b2"]) := by
  refine ⟨by decide, by decide, by decide, ?_, ?_⟩
  · exact (C5_batch_completeness (fun _ => true) c5Outcome ["i1", "i2"]
      ["b1", "b2"]).2.1 "i1" 7 (by decide)
  · exact (C5_batch_completeness (fun _ => true) c5Outcome ["i1", "i2"]
      ["b1", "b2"]).2.2 "i2" (by decide) (by decide)

/-! ## Scorer (parallel.py, `_calculate_image_score` and helpers)

Float arithmetic is modelled over `ℚ`, with the decimal literals of the
source read exactly.  The float exponentiation `** 2.4` in the gamma
correction is not a rational-valued function; it is abstracted as a
parameter `g` applied to the gamma-branch argument.  No claim below depends
on the value of `g`, and every concrete instance avoids evaluating it. -/

/-- Python whitespace stripped by `int(str, base)`. -/
def isPySpace (c : Char) : Bool :=
  ([' ', '\t', '\n', '\r', '\x0b', '\x0c'] : List Char).contains c

def hexDigitVal (c : Char) : Option Nat :=
  if '0' ≤ c ∧ c ≤ '9' then some (c.toNat - '0'.toNat)
  else if 'a' ≤ c ∧ c ≤ 'f' then some (c.toNat - 'a'.toNat + 10)
  else if 'A' ≤ c ∧ c ≤ 'F' then some (c.toNat - 'A'.toNat + 10)
  else none

def hexNatAux (acc : Nat) : List Char → Option Nat
  | [] => some acc
  | c :: rest =>
    match hexDigitVal c with
    | some d => hexNatAux (16 * acc + d) rest
    | none => none

/-- Python `int(s, 16)` restricted to the short slices the scorer feeds it:
strip whitespace, then an optional sign followed by hex digits; failure
(`ValueError`) is `none`.  (Underscore separators need at least three
characters and can only occur between digits, so they cannot appear in the
two-character slices used here.) -/
def pyIntHex (s : String) : Option Int :=
  let cs := ((s.data.dropWhile isPySpace).reverse.dropWhile isPySpace).reverse
  match cs with
  | [] => none
  | '+' :: rest =>
    if rest = [] then none else (hexNatAux 0 rest).map (fun n => (n : Int))
  | '-' :: rest =>
    if rest = [] then none else (hexNatAux 0 rest).map (fun n => -(n : Int))
  | cs => (hexNatAux 0 cs).map (fun n => (n : Int))

/-- The gamma-corrected channel value of `get_luminance`
(parallel.py:221-224): `c/12.92` below the 0.03928 threshold, otherwise
`((c+0.055)/1.055) ** 2.4`, whose irrational power is the parameter `g`. -/
def gammaChannel (g : ℚ → ℚ) (v : Int) : ℚ :=
  let c : ℚ := (v : ℚ) / 255
  if c ≤ 3928 / 100000 then c / (1292 / 100)
  else g ((c + 55 / 1000) / (1055 / 1000))

/-- Embeds `get_luminance` inside `_calculate_contrast` (parallel.py:214-225):
`none` models an exception escaping to the enclosing `try` (a hex slice that
`int(…, 16)` rejects); a stripped length other than 6 short-circuits to the
neutral luminance 0.5. -/
def luminanceResult (g : ℚ → ℚ) (color : String) : Option ℚ :=
  let hx := color.data.dropWhile (fun ch => ch = '#')
  if hx.length ≠ 6 then some (1 / 2)
  else
    match pyIntHex (String.mk (hx.take 2)), pyIntHex (String.mk ((hx.drop 2).take 2)),
        pyIntHex (String.mk ((hx.drop 4).take 2)) with
    | some r, some gr, some b =>
      some (2126 / 10000 * gammaChannel g r + 7152 / 10000 * gammaChannel g gr +
        722 / 10000 * gammaChannel g b)
    | _, _, _ => none

/-- Embeds `ParallelColorProcessor._calculate_contrast` (parallel.py:210-237):
contrast ratio normalised by 21 and clipped at 1; any exception inside the
`try` (a luminance computation failing) yields the fallback 0.5. -/
def calculate_contrast (g : ℚ → ℚ) (c1 c2 : String) : ℚ :=
  match luminanceResult g c1, luminanceResult g c2 with
  | some l1, some l2 =>
    min ((max l1 l2 + 5 / 100) / (min l1 l2 + 5 / 100) / 21) 1
  | _, _ => 1 / 2

/-- Embeds `ParallelColorProcessor._calculate_saturation` (parallel.py:239-251):
HSV-style saturation `(max-min)/max`; a malformed color (wrong length or an
unparseable slice, i.e. the `except`) yields 0. -/
def calculate_saturation (color : String) : ℚ :=
  let hx := color.data.dropWhile (fun ch => ch = '#')
  if hx.length ≠ 6 then 0
  else
    match pyIntHex (String.mk (hx.take 2)), pyIntHex (String.mk ((hx.drop 2).take 2)),
        pyIntHex (String.mk ((hx.drop 4).take 2)) with
    | some r, some gr, some b =>
      let r' : ℚ := (r : ℚ) / 255
      let g' : ℚ := (gr : ℚ) / 255
      let b' : ℚ := (b : ℚ) / 255
      let maxv := max r' (max g' b')
      let minv := min r' (min g' b')
      if 0 < maxv then (maxv - minv) / maxv else 0
    | _, _, _ => 0

/-- Embeds `ParallelColorProcessor._calculate_variance` (parallel.py:253-259):
population variance, 0 for fewer than two samples. -/
def calculate_variance (values : List ℚ) : ℚ :=
  if values.length < 2 then 0
  else
    ((values.map (fun x => (x - values.sum / values.length) ^ 2)).sum :
      ℚ) / values.length

/-- An artifact as the scorer reads it: the `colors` and `special`
dictionaries of the scheme document (insertion-ordered key/value lists). -/
structure ColorScheme where
  colors : List (String × String)
  special : List (String × String)

/-- Python `dict.get(key, default)`. -/
def dictGetD (l : List (String × String)) (k dflt : String) : String :=
  match l.find? (fun p => p.1 == k) with
  | some p => p.2
  | none => dflt

/-- Embeds `ParallelColorProcessor._calculate_image_score` (parallel.py:171-208):
weighted sum of palette diversity (0.3), background/foreground contrast
(0.4) and saturation variance over the first 8 palette colors (0.3).  The
component helpers are total (each swallows its own failures), so the outer
`except` branch returning 0.0 is unreachable in the model. -/
def calculate_image_score (g : ℚ → ℚ) (scheme : ColorScheme) : ℚ :=
  let color_values := scheme.colors.map (fun p => p.2)
  let score1 : ℚ :=
    if 16 ≤ color_values.length then
      (color_values.dedup.length : ℚ) / 16 * (3 / 10)
    else 0
  let bg := dictGetD scheme.special "background" "#000000"
  let fg := dictGetD scheme.special "foreground" "#ffffff"
  let score2 : ℚ :=
    if bg ≠ "" ∧ fg ≠ "" then calculate_contrast g bg fg * (4 / 10) else 0
  let saturations := (color_values.take 8).filterMap (fun c =>
    if c ≠ "" ∧ c.startsWith "#" then some (calculate_saturation c) else none)
  let score3 : ℚ :=
    if saturations ≠ [] then min (calculate_variance saturations) 1 * (3 / 10)
    else 0
  score1 + score2 + score3

/-- The scorer result on the counterexample artifact does not depend on the
abstracted gamma power: both malformed colors short-circuit before the
gamma branch. -/
theorem score_gamma_independent_on_cex (g1 g2 : ℚ → ℚ) :
    calculate_image_score g1
      { colors := [], special := [("background", "#0"), ("foreground", "#1")] } =
    calculate_image_score g2
      { colors := [], special := [("background", "#0"), ("foreground", "#1")] } := by
  rfl

/-- C7 counterexample: an artifact whose background (`"#0"`) and foreground
(`"#1"`) are malformed color strings scores `0.4 · (1/21) = 2/105 ≠ 0`: the
failed luminance computations fall back to the neutral 0.5 (contrast ratio
1, normalised 1/21), not to a 0 contribution as the claim states. -/
theorem C7_cex_malformed_color_nonzero_contribution :
    calculate_image_score (fun x => x)
      { colors := [], special := [("background", "#0"), ("foreground", "#1")] } =
      2 / 105 ∧ (2 / 105 : ℚ) ≠ 0 := by
  constructor
  · have hbg : dictGetD [("background", "#0"), ("foreground", "#1")]
        "background" "#000000" = "#0" := rfl
    have hfg : dictGetD [("background", "#0"), ("foreground", "#1")]
        "foreground" "#ffffff" = "#1" := rfl
    have hl0 : luminanceResult (fun x : ℚ => x) "#0" = some (1 / 2) := rfl
    have hl1 : luminanceResult (fun x : ℚ => x) "#1" = some (1 / 2) := rfl
    have hc : calculate_contrast (fun x : ℚ => x) "#0" "#1" = 1 / 21 := by
      unfold calculate_contrast
      rw [hl0, hl1]
      norm_num
    norm_num [calculate_image_score, hbg, hfg, hc]
    exact ⟨by decide, by decide⟩
  · norm_num

/-- C7 amended: no computation failure in a score component raises — the
total score is always returned — but the fallback contribution is not
always 0: a failed luminance parse makes the whole contrast computation
return 0.5 (so the contrast component contributes 0.2), a background or
foreground of the wrong length gets the neutral luminance 0.5, and only a
malformed palette color's saturation is actually 0 as claimed. -/
theorem C7_scorer_failure_fallbacks :
    (∀ g : ℚ → ℚ, ∀ c1 c2 : String,
      luminanceResult g c1 = none ∨ luminanceResult g c2 = none →
      calculate_contrast g c1 c2 = 1 / 2) ∧
    (∀ g : ℚ → ℚ, ∀ c : String,
      (c.data.dropWhile (fun ch => ch = '#')).length ≠ 6 →
      luminanceResult g c = some (1 / 2)) ∧
    (∀ c : String, (c.data.dropWhile (fun ch => ch = '#')).length ≠ 6 →
      calculate_saturation c = 0) ∧
    (∀ c : String,
      pyIntHex (String.mk ((c.data.dropWhile (fun ch => ch = '#')).take 2)) =
        none →
      calculate_saturation c = 0) := by
  refine ⟨?_, ?_, ?_, ?_⟩
  · intro g c1 c2 h
    unfold calculate_contrast
    rcases h with h | h
    · rw [h]
    · rw [h]
      cases luminanceResult g c1 <;> rfl
  · intro g c h
    unfold luminanceResult
    simp only [if_pos h]
  · intro c h
    unfold calculate_saturation
    simp only [if_pos h]
  · intro c h
    unfold calculate_saturation
    by_cases hl : (c.data.dropWhile (fun ch => ch = '#')).length ≠ 6
    · simp only [if_pos hl]
    · simp only [if_neg hl]
      rw [h]

/-- Witness for `C7_scorer_failure_fallbacks` at concrete malformed colors. -/
theorem C7_scorer_failure_fallbacks_witness :
    luminanceResult (fun x => x) "#zzzzzz" = none ∧
    calculate_contrast (fun x => x) "#zzzzzz" "#123456" = 1 / 2 ∧
    ("#12".data.dropWhile (fun ch => ch = '#')).length ≠ 6 ∧
    luminanceResult (fun x => x) "#12" = some (1 / 2) ∧
    calculate_saturation "#12" = 0 ∧
    pyIntHex (String.mk (("#zzzzzz".data.dropWhile (fun ch => ch = '#')).take 2)) =
      none ∧
    calculate_saturation "#zzzzzz" = 0 := by
  refine ⟨rfl, ?_, by decide, ?_, ?_, rfl, ?_⟩
  · exact (C7_scorer_failure_fallbacks).1 (fun x => x) "#zzzzzz" "#123456"
      (Or.inl rfl)
  · exact (C7_scorer_failure_fallbacks).2.1 (fun x => x) "#12" (by decide)
  · exact (C7_scorer_failure_fallbacks).2.2.1 "#12" (by decide)
  · exact (C7_scorer_failure_fallbacks).2.2.2 "#zzzzzz" rfl

/-- Witness for `C8_digest_input_discriminates` at concrete inputs. -/
theorem C8_digest_input_discriminates_witness :
    (("wal" : String) ≠ "colorz") ∧ (normSat "0.5" ≠ normSat "0.7") ∧
    (digestInput "aabb" "wal" true "0.5" 7 9 ≠ digestInput "aabb" "colorz" true "0.5" 7 9) ∧
    (digestInput "aabb" "wal" true "0.5" 7 9 ≠ digestInput "aabb" "wal" false "0.5" 7 9) ∧
    (digestInput "aabb" "wal" true "0.5" 7 9 ≠ digestInput "aabb" "wal" true "0.7" 7 9) :=
  ⟨by decide, by decide,
   (C8_digest_input_discriminates "aabb" "wal" "colorz" true "0.5" "0.5" "0.7" 7 9).1
     (by decide),
   (C8_digest_input_discriminates "aabb" "wal" "colorz" true "0.5" "0.5" "0.7" 7 9).2.1,
   (C8_digest_input_discriminates "aabb" "wal" "colorz" true "0.5" "0.5" "0.7" 7 9).2.2
     (by decide)⟩

end NuPywal
